import Mathlib

/-!
Shallow embedding of the Slack channel-name resolver from
`src/sentry/integrations/slack/notify_action.py`.

The resolver `get_channel_id_with_timeout(integration, name, timeout)` pages
through Slack directory-list endpoints (`conversations`/`users`, or the legacy
`channels`/`groups`/`users`) looking for an entry whose unique `name` equals
the target, or — for the `users` directory — whose profile `display_name`
equals it, detecting duplicates.  Network responses, and the wall-clock time
each request consumes, are modelled by an environment `Env`; the unbounded
`while True` page loop is modelled with fuel (`none` = the loop has not
terminated within the given fuel).  Every observable action of the function
(request issued with its cursor and `limit` parameter, entry scanned, sleep on
rate-limit, error/timeout aborts, pagination exhaustion) is recorded in an
event trace so that ordering properties of the original code can be stated.
-/

namespace SlackResolver

/-- `MEMBER_PREFIX = '@'` from the source. -/
def MEMBER_PREFIX : String := "@"

/-- `CHANNEL_PREFIX = '#'` from the source. -/
def CHANNEL_PREFIX : String := "#"

/-- `SLACK_DEFAULT_TIMEOUT = 30` from the source.  Wall-clock durations are
modelled as integers: the source deals in Python floats, but every property
stated here uses only their ordering and addition. -/
def SLACK_DEFAULT_TIMEOUT : ℤ := 30

/-- `strip_channel_chars = ''.join([MEMBER_PREFIX, CHANNEL_PREFIX])`. -/
def strip_channel_chars : String := MEMBER_PREFIX ++ CHANNEL_PREFIX

/-- Python `s.lstrip(chars)`: drop leading characters that belong to `chars`. -/
def lstrip (chars s : String) : String :=
  ⟨s.data.dropWhile (fun c => chars.data.contains c)⟩

/-- The name normalisation done by `SlackNotifyServiceForm.clean` (line 47):
`cleaned_data.get('channel', '').lstrip(strip_channel_chars)`. -/
def clean_channel (s : String) : String := lstrip strip_channel_chars s

/-- A user profile object: only its `display_name` field is read. -/
structure Profile where
  display_name : Option String
deriving DecidableEq

/-- One directory entry as the code reads it: the unique `name`, the `id`,
and the optional `profile` (with its optional `display_name`). -/
structure SlackEntry where
  name : String
  id : String
  profile : Option Profile
deriving DecidableEq

/-- One JSON response of a `<list_type>.list` call, with the `retry-after`
header: `ok`, the items under the result key, and
`response_metadata.next_cursor`. -/
structure Response where
  ok : Bool
  retry_after : Option ℤ
  items : List SlackEntry
  next_cursor : Option String
deriving DecidableEq

/-- The external world: `respond i lt cur` is the response to the `i`-th
request overall, issued for list type `lt` with cursor `cur`; `reqTime i` is
the wall-clock time that elapses while the `i`-th request is issued and its
page processed (observed by the `time.time()` check after the page). -/
structure Env where
  respond : Nat → String → String → Response
  reqTime : Nat → ℤ

/-- Observable events of one resolver run, in order. `request` carries the
cursor and the `limit` query parameter sent; `scan` is one entry inspected by
the `for c in items[result_name]` loop; `sleep` is the rate-limit back-off;
`apiError`/`timedOut` are the two abort returns; `exhausted` marks the
`break` on an empty `next_cursor`. -/
inductive Ev where
  | request (listType cur : String) (limit : Option Nat)
  | scan (listType pre : String) (e : SlackEntry)
  | sleep (d : ℤ)
  | apiError (listType pre : String)
  | timedOut (listType pre : String)
  | exhausted (listType : String)
deriving DecidableEq

/-- `profile and profile.get("display_name") == name` (lines 260-261):
a missing profile, or a missing display name, never matches. -/
def displayMatch (name : String) (e : SlackEntry) : Bool :=
  match e.profile with
  | some p => decide (p.display_name = some name)
  | none => false

/-- Outcome of scanning one page's items (lines 251-265): either the
`return (prefix, c["id"])` on an exact `name` match, or the continuation
state `(id_data, found_duplicate)`. -/
inductive PageOut where
  | found : String × String → PageOut
  | cont : Option (String × String) → Bool → PageOut
deriving DecidableEq

/-- The `(id_data, found_duplicate)` update done for one entry that is not an
exact `name` match (lines 259-265): only in the `users` directory, and only
on a display-name match; a second match sets `found_duplicate` and keeps the
first candidate. -/
def updEntry (name lt pre : String) (e : SlackEntry)
    (idData : Option (String × String)) (dup : Bool) :
    Option (String × String) × Bool :=
  if lt = "users" then
    if displayMatch name e then
      if idData.isSome then (idData, true) else (some (pre, e.id), dup)
    else (idData, dup)
  else (idData, dup)

/-- The `for c in items[result_name]` loop (lines 251-265).  Returns the
outcome together with the list of entries actually inspected (scanning stops
at the first exact `name` match). -/
def scanPage (name lt pre : String) :
    Option (String × String) → Bool → List SlackEntry →
    PageOut × List SlackEntry
  | idData, dup, [] => (.cont idData dup, [])
  | idData, dup, e :: rest =>
    if e.name = name then (.found (pre, e.id), [e])
    else
      let s := updEntry name lt pre e idData dup
      let r := scanPage name lt pre s.1 s.2 rest
      (r.1, e :: r.2)

/-- Python truthiness of the `next_cursor` value: `None` and `""` are falsy
(`if not cursor: break`, line 272). -/
def cursorTruthy : Option String → Bool
  | none => false
  | some s => !s.isEmpty

/-- Mutable state threaded through the loops: the global request counter, the
current wall clock, and the `id_data` / `found_duplicate` variables
(initialised once, before the directory-type loop, lines 229-230). -/
structure St where
  reqIdx : Nat
  clock : ℤ
  idData : Option (String × String)
  dup : Bool
deriving DecidableEq

/-- How the `while True` page loop ends: a `return` of the whole function, or
the `break` on pagination exhaustion. -/
inductive LoopOut where
  | ret : String × Option String → LoopOut
  | done : LoopOut
deriving DecidableEq

/-- Events produced by one successful page: the request and its scans. -/
def pageEvs (lt pre cur : String) (sc : List SlackEntry) : List Ev :=
  Ev.request lt cur (some 100) :: sc.map (Ev.scan lt pre)

/-- The `while True` pagination loop for one directory type (lines 234-273).
`ttq` is `time_to_quit`.  Each iteration issues the request (the source
passes `limit=100` unconditionally, line 238), then: on `ok: false` with a
`retry-after` header sleeps and retries the same cursor; on `ok: false`
without one returns `(prefix, None)`; on success scans the page, returns on
an exact match, then checks the deadline (before the empty-cursor `break`),
and otherwise follows `next_cursor` or breaks.  `none` = fuel exhausted
(the loop has not terminated within `fuel` iterations). -/
def runPages (env : Env) (name lt pre : String) (ttq : ℤ) :
    Nat → St → String → Option (LoopOut × Nat × St × List Ev)
  | 0, _, _ => none
  | fuel + 1, st, cur =>
    let r := env.respond st.reqIdx lt cur
    let st1 : St := ⟨st.reqIdx + 1, st.clock + env.reqTime st.reqIdx, st.idData, st.dup⟩
    if r.ok then
      match scanPage name lt pre st.idData st.dup r.items with
      | (.found res, sc) =>
        some (.ret (res.1, some res.2), fuel, st1, pageEvs lt pre cur sc)
      | (.cont idD dp, sc) =>
        let st2 : St := ⟨st1.reqIdx, st1.clock, idD, dp⟩
        if ttq < st2.clock then
          some (.ret (pre, none), fuel, st2, pageEvs lt pre cur sc ++ [Ev.timedOut lt pre])
        else if cursorTruthy r.next_cursor then
          match runPages env name lt pre ttq fuel st2 (r.next_cursor.getD "") with
          | none => none
          | some (o, f, s, tr) => some (o, f, s, pageEvs lt pre cur sc ++ tr)
        else
          some (.done, fuel, st2, pageEvs lt pre cur sc ++ [Ev.exhausted lt])
    else
      match r.retry_after with
      | some d =>
        match runPages env name lt pre ttq fuel ⟨st1.reqIdx, st1.clock + d, st1.idData, st1.dup⟩ cur with
        | none => none
        | some (o, f, s, tr) => some (o, f, s, Ev.request lt cur (some 100) :: Ev.sleep d :: tr)
      | none =>
        some (.ret (pre, none), fuel, st1, [Ev.request lt cur (some 100), Ev.apiError lt pre])
termination_by structural fuel _ _ => fuel

/-- The `for list_type, result_name, prefix in list_types` loop
(lines 232-277) and the final `return (prefix, None)` (line 279), which uses
the prefix of the last directory type tried (`prev` tracks it). -/
def runTypes (env : Env) (name : String) (ttq : ℤ) :
    List (String × String × String) → Nat → St → String →
    Option ((String × Option String) × List Ev)
  | [], _, _, prev => some ((prev, none), [])
  | (lt, _, pre) :: rest, fuel, st, _ =>
    match runPages env name lt pre ttq fuel st "" with
    | none => none
    | some (.ret r, _, _, tr) => some (r, tr)
    | some (.done, fuel1, st1, tr) =>
      if st1.dup then some ((pre, none), tr)
      else
        match st1.idData with
        | some c => some ((c.1, some c.2), tr)
        | none =>
          match runTypes env name ttq rest fuel1 st1 pre with
          | none => none
          | some (r, tr1) => some (r, tr ++ tr1)

/-- `LEGACY_LIST_TYPES` (lines 205-209). -/
def LEGACY_LIST_TYPES : List (String × String × String) :=
  [("channels", "channels", CHANNEL_PREFIX),
   ("groups", "groups", CHANNEL_PREFIX),
   ("users", "members", MEMBER_PREFIX)]

/-- `LIST_TYPES` (line 210). -/
def LIST_TYPES : List (String × String × String) :=
  [("conversations", "channels", CHANNEL_PREFIX),
   ("users", "members", MEMBER_PREFIX)]

/-- `get_channel_id_with_timeout` (lines 195-279): chooses the directory list
by the `slack.legacy-app` flag, sets `time_to_quit = time.time() + timeout`
(the clock starts at 0), and runs the directory-type loop with
`id_data = None`, `found_duplicate = False` and cursor `""`.  The result is
the returned pair together with the event trace, or `none` if the page loop
needed more than `fuel` iterations. -/
def get_channel_id_with_timeout (env : Env) (legacy : Bool) (name : String)
    (timeout : ℤ) (fuel : Nat) : Option ((String × Option String) × List Ev) :=
  runTypes env name timeout (if legacy then LEGACY_LIST_TYPES else LIST_TYPES)
    fuel ⟨0, 0, none, false⟩ CHANNEL_PREFIX

/-- The id of a scanned `users`-directory entry whose display name matches
the target, if this event is such a scan. -/
def evMatchId (name : String) : Ev → Option String
  | .scan lt _ e => if lt = "users" ∧ displayMatch name e then some e.id else none
  | _ => none

/-- All ids of `users`-directory display-name matches recorded in a trace,
in scan order. -/
def scanMatches (name : String) (tr : List Ev) : List String :=
  tr.filterMap (evMatchId name)

/-- Abstract update of `(id_data, found_duplicate)` by one display-name
match (lines 262-265): a second match sets the duplicate flag and never
overwrites the first candidate. -/
def updCand (pre : String) :
    Option (String × String) × Bool → String → Option (String × String) × Bool
  | (some c, _), _ => (some c, true)
  | (none, dp), i => (some (pre, i), dp)

/-- The list type named by a request event, if any. -/
def evRequestType : Ev → Option String
  | .request lt _ _ => some lt
  | _ => none

/-- The list types of all requests of a trace, in order. -/
def requestTypes (tr : List Ev) : List String := tr.filterMap evRequestType

/-- `isBlockSeq xs order`: `xs` splits into contiguous blocks that follow
`order` — each element repeats the current block's label or moves to a later
label of `order`. -/
def isBlockSeq : List String → List String → Bool
  | [], _ => true
  | _ :: _, [] => false
  | x :: xs, o :: os =>
    (decide (x = o) && isBlockSeq xs (o :: os)) || isBlockSeq (x :: xs) os
termination_by l₁ l₂ => l₁.length + l₂.length

/-- Display-name match ids of the entries of one page, in scan order. -/
def pageMatches (name lt : String) (sc : List SlackEntry) : List String :=
  sc.filterMap (fun e => if lt = "users" ∧ displayMatch name e then some e.id else none)

/-- Shape invariant of the events produced by one directory type's page
loop: every event names that directory's list type and prefix, and every
request sends `limit=100`. -/
def evWithin (lt pre : String) : Ev → Prop
  | .request lt' _ l => lt' = lt ∧ l = some 100
  | .scan lt' pre' _ => lt' = lt ∧ pre' = pre
  | .timedOut lt' pre' => lt' = lt ∧ pre' = pre
  | .apiError lt' pre' => lt' = lt ∧ pre' = pre
  | .exhausted lt' => lt' = lt
  | .sleep _ => True

/-! ### Lemmas about one page's entry scan -/

theorem scanPage_mem_name (name lt pre : String) :
    ∀ (items : List SlackEntry) (idData : Option (String × String)) (dup : Bool)
      (out : PageOut) (sc : List SlackEntry) (e : SlackEntry),
      scanPage name lt pre idData dup items = (out, sc) → e ∈ sc → e.name = name →
      out = .found (pre, e.id) ∧ sc.getLast? = some e := by
  intro items
  induction items with
  | nil =>
    intro idData dup out sc e h hm _
    simp only [scanPage, Prod.mk.injEq] at h
    rcases h with ⟨-, h2⟩
    subst h2
    simp at hm
  | cons a rest ih =>
    intro idData dup out sc e h hm hname
    by_cases ha : a.name = name
    · simp only [scanPage, if_pos ha, Prod.mk.injEq] at h
      rcases h with ⟨h1, h2⟩
      subst h1; subst h2
      simp only [List.mem_singleton] at hm
      subst hm
      simp
    · simp only [scanPage, if_neg ha] at h
      rcases hr : scanPage name lt pre (updEntry name lt pre a idData dup).1
          (updEntry name lt pre a idData dup).2 rest with ⟨out', sc'⟩
      rw [hr] at h
      simp only [Prod.mk.injEq] at h
      rcases h with ⟨h1, h2⟩
      subst h1
      subst h2
      rcases List.mem_cons.mp hm with he | hm'
      · subst he; exact absurd hname ha
      · have := ih _ _ _ _ e hr hm' hname
        refine ⟨this.1, ?_⟩
        cases sc' with
        | nil => simp at hm'
        | cons b l => rw [List.getLast?_cons_cons]; exact this.2

theorem scanPage_found (name lt pre : String) :
    ∀ (items : List SlackEntry) (idData : Option (String × String)) (dup : Bool)
      (res : String × String) (sc : List SlackEntry),
      scanPage name lt pre idData dup items = (.found res, sc) →
      ∃ e, e.name = name ∧ res = (pre, e.id) ∧ sc.getLast? = some e ∧ e ∈ sc := by
  intro items
  induction items with
  | nil => intro idData dup res sc h; simp [scanPage] at h
  | cons a rest ih =>
    intro idData dup res sc h
    by_cases ha : a.name = name
    · simp only [scanPage, if_pos ha, Prod.mk.injEq, PageOut.found.injEq] at h
      rcases h with ⟨h1, h2⟩
      subst h2
      exact ⟨a, ha, h1.symm, by simp, by simp⟩
    · simp only [scanPage, if_neg ha] at h
      rcases hr : scanPage name lt pre (updEntry name lt pre a idData dup).1
          (updEntry name lt pre a idData dup).2 rest with ⟨out', sc'⟩
      rw [hr] at h
      simp only [Prod.mk.injEq] at h
      rcases h with ⟨h1, h2⟩
      subst h2
      subst h1
      rcases ih _ _ _ _ hr with ⟨e, he1, he2, he3, he4⟩
      refine ⟨e, he1, he2, ?_, List.mem_cons_of_mem a he4⟩
      cases sc' with
      | nil => simp at he4
      | cons b l => rw [List.getLast?_cons_cons]; exact he3

theorem pageMatches_cons (name lt : String) (a : SlackEntry) (sc : List SlackEntry) :
    pageMatches name lt (a :: sc) =
      (if lt = "users" ∧ displayMatch name a then [a.id] else []) ++ pageMatches name lt sc := by
  by_cases h : lt = "users" ∧ displayMatch name a
  · simp [pageMatches, List.filterMap_cons, h]
  · simp [pageMatches, List.filterMap_cons, h]

theorem updEntry_foldl (name lt pre : String) (a : SlackEntry)
    (idData : Option (String × String)) (dup : Bool) :
    updEntry name lt pre a idData dup =
      List.foldl (updCand pre) (idData, dup)
        (if lt = "users" ∧ displayMatch name a then [a.id] else []) := by
  by_cases hu : lt = "users"
  · by_cases hd : displayMatch name a
    · simp only [updEntry, if_pos hu, if_pos hd, if_pos (And.intro hu hd)]
      cases idData with
      | none => simp [updCand]
      | some c => simp [updCand]
    · have : ¬(lt = "users" ∧ displayMatch name a) := fun h => hd h.2
      simp [updEntry, hu, hd, this]
  · have : ¬(lt = "users" ∧ displayMatch name a) := fun h => hu h.1
    simp [updEntry, hu, this]

theorem scanPage_cont (name lt pre : String) :
    ∀ (items : List SlackEntry) (idData : Option (String × String)) (dup : Bool)
      (idD : Option (String × String)) (dp : Bool) (sc : List SlackEntry),
      scanPage name lt pre idData dup items = (.cont idD dp, sc) →
      (idD, dp) = List.foldl (updCand pre) (idData, dup) (pageMatches name lt sc) := by
  intro items
  induction items with
  | nil =>
    intro idData dup idD dp sc h
    simp only [scanPage, Prod.mk.injEq, PageOut.cont.injEq] at h
    rcases h with ⟨⟨h1, h2⟩, h3⟩
    subst h1; subst h2; subst h3
    simp [pageMatches]
  | cons a rest ih =>
    intro idData dup idD dp sc h
    by_cases ha : a.name = name
    · simp [scanPage, if_pos ha] at h
    · simp only [scanPage, if_neg ha] at h
      rcases hr : scanPage name lt pre (updEntry name lt pre a idData dup).1
          (updEntry name lt pre a idData dup).2 rest with ⟨out', sc'⟩
      rw [hr] at h
      simp only [Prod.mk.injEq] at h
      rcases h with ⟨h1, h2⟩
      subst h2
      subst h1
      have hstep := ih _ _ _ _ _ hr
      rw [pageMatches_cons, List.foldl_append, ← updEntry_foldl]
      simpa using hstep

theorem pageMatches_of_ne_users (name lt : String) (h : lt ≠ "users") :
    ∀ sc : List SlackEntry, pageMatches name lt sc = [] := by
  intro sc
  induction sc with
  | nil => rfl
  | cons a l ih =>
    rw [pageMatches_cons]
    simp only [h, false_and, if_false, List.nil_append]
    exact ih

theorem scanMatches_map_scan (name lt pre : String) (sc : List SlackEntry) :
    scanMatches name (sc.map (Ev.scan lt pre)) = pageMatches name lt sc := by
  simp only [scanMatches, List.filterMap_map, pageMatches]
  congr 1

/-! ### Lemmas about the duplicate-candidate fold -/

theorem foldl_updCand_some (pre : String) :
    ∀ (ms : List String) (c : String × String) (dp : Bool),
      List.foldl (updCand pre) (some c, dp) ms = (some c, dp || !ms.isEmpty) := by
  intro ms
  induction ms with
  | nil => intro c dp; simp
  | cons i ms' ih =>
    intro c dp
    simp only [List.foldl_cons, updCand, ih, List.isEmpty_cons]
    simp

theorem foldl_updCand_none (pre : String) :
    ∀ ms : List String,
      List.foldl (updCand pre) (none, false) ms =
        match ms with
        | [] => (none, false)
        | [i] => (some (pre, i), false)
        | i :: _ :: _ => (some (pre, i), true) := by
  intro ms
  match ms with
  | [] => rfl
  | i :: ms' =>
    simp only [List.foldl_cons, updCand, foldl_updCand_some]
    cases ms' <;> simp

/-! ### Branch equations of the page loop -/

theorem runPages_zero (env : Env) (name lt pre : String) (ttq : ℤ) (st : St) (cur : String) :
    runPages env name lt pre ttq 0 st cur = none := rfl

theorem runPages_found (env : Env) (name lt pre : String) (ttq : ℤ)
    (fuel : Nat) (st : St) (cur : String) (res : String × String) (sc : List SlackEntry)
    (hok : (env.respond st.reqIdx lt cur).ok = true)
    (hsc : scanPage name lt pre st.idData st.dup (env.respond st.reqIdx lt cur).items
      = (.found res, sc)) :
    runPages env name lt pre ttq (fuel + 1) st cur =
      some (.ret (res.1, some res.2), fuel,
        ⟨st.reqIdx + 1, st.clock + env.reqTime st.reqIdx, st.idData, st.dup⟩,
        pageEvs lt pre cur sc) := by
  simp [runPages, hok, hsc]

theorem runPages_timeout (env : Env) (name lt pre : String) (ttq : ℤ)
    (fuel : Nat) (st : St) (cur : String)
    (idD : Option (String × String)) (dp : Bool) (sc : List SlackEntry)
    (hok : (env.respond st.reqIdx lt cur).ok = true)
    (hsc : scanPage name lt pre st.idData st.dup (env.respond st.reqIdx lt cur).items
      = (.cont idD dp, sc))
    (ht : ttq < st.clock + env.reqTime st.reqIdx) :
    runPages env name lt pre ttq (fuel + 1) st cur =
      some (.ret (pre, none), fuel,
        ⟨st.reqIdx + 1, st.clock + env.reqTime st.reqIdx, idD, dp⟩,
        pageEvs lt pre cur sc ++ [Ev.timedOut lt pre]) := by
  simp [runPages, hok, hsc, ht]

theorem runPages_next (env : Env) (name lt pre : String) (ttq : ℤ)
    (fuel : Nat) (st : St) (cur : String)
    (idD : Option (String × String)) (dp : Bool) (sc : List SlackEntry)
    (hok : (env.respond st.reqIdx lt cur).ok = true)
    (hsc : scanPage name lt pre st.idData st.dup (env.respond st.reqIdx lt cur).items
      = (.cont idD dp, sc))
    (ht : ¬ttq < st.clock + env.reqTime st.reqIdx)
    (hcu : cursorTruthy (env.respond st.reqIdx lt cur).next_cursor = true) :
    runPages env name lt pre ttq (fuel + 1) st cur =
      (runPages env name lt pre ttq fuel
          ⟨st.reqIdx + 1, st.clock + env.reqTime st.reqIdx, idD, dp⟩
          ((env.respond st.reqIdx lt cur).next_cursor.getD "")).map
        (fun x => (x.1, x.2.1, x.2.2.1, pageEvs lt pre cur sc ++ x.2.2.2)) := by
  simp only [runPages, hok, if_true, hsc, ht, if_false, hcu]
  rcases runPages env name lt pre ttq fuel
      ⟨st.reqIdx + 1, st.clock + env.reqTime st.reqIdx, idD, dp⟩
      ((env.respond st.reqIdx lt cur).next_cursor.getD "") with - | ⟨o, f, s, tr⟩ <;> simp

theorem runPages_break (env : Env) (name lt pre : String) (ttq : ℤ)
    (fuel : Nat) (st : St) (cur : String)
    (idD : Option (String × String)) (dp : Bool) (sc : List SlackEntry)
    (hok : (env.respond st.reqIdx lt cur).ok = true)
    (hsc : scanPage name lt pre st.idData st.dup (env.respond st.reqIdx lt cur).items
      = (.cont idD dp, sc))
    (ht : ¬ttq < st.clock + env.reqTime st.reqIdx)
    (hcu : cursorTruthy (env.respond st.reqIdx lt cur).next_cursor = false) :
    runPages env name lt pre ttq (fuel + 1) st cur =
      some (.done, fuel,
        ⟨st.reqIdx + 1, st.clock + env.reqTime st.reqIdx, idD, dp⟩,
        pageEvs lt pre cur sc ++ [Ev.exhausted lt]) := by
  simp [runPages, hok, hsc, ht, hcu]

theorem runPages_rate_limited (env : Env) (name lt pre : String) (ttq : ℤ)
    (fuel : Nat) (st : St) (cur : String) (d : ℤ)
    (hok : (env.respond st.reqIdx lt cur).ok = false)
    (hra : (env.respond st.reqIdx lt cur).retry_after = some d) :
    runPages env name lt pre ttq (fuel + 1) st cur =
      (runPages env name lt pre ttq fuel
          ⟨st.reqIdx + 1, st.clock + env.reqTime st.reqIdx + d, st.idData, st.dup⟩ cur).map
        (fun x => (x.1, x.2.1, x.2.2.1,
          Ev.request lt cur (some 100) :: Ev.sleep d :: x.2.2.2)) := by
  simp only [runPages, hok, if_false, hra, Bool.false_eq_true]
  rcases runPages env name lt pre ttq fuel
      ⟨st.reqIdx + 1, st.clock + env.reqTime st.reqIdx + d, st.idData, st.dup⟩ cur
    with - | ⟨o, f, s, tr⟩ <;> simp

theorem runPages_error (env : Env) (name lt pre : String) (ttq : ℤ)
    (fuel : Nat) (st : St) (cur : String)
    (hok : (env.respond st.reqIdx lt cur).ok = false)
    (hra : (env.respond st.reqIdx lt cur).retry_after = none) :
    runPages env name lt pre ttq (fuel + 1) st cur =
      some (.ret (pre, none), fuel,
        ⟨st.reqIdx + 1, st.clock + env.reqTime st.reqIdx, st.idData, st.dup⟩,
        [Ev.request lt cur (some 100), Ev.apiError lt pre]) := by
  simp [runPages, hok, hra]

theorem mem_pageEvs (lt pre cur : String) (sc : List SlackEntry) (ev : Ev)
    (h : ev ∈ pageEvs lt pre cur sc) :
    ev = Ev.request lt cur (some 100) ∨ ∃ e ∈ sc, ev = Ev.scan lt pre e := by
  rcases List.mem_cons.mp h with h1 | h2
  · exact Or.inl h1
  · rcases List.mem_map.mp h2 with ⟨e, he, hev⟩
    exact Or.inr ⟨e, he, hev.symm⟩

theorem evWithin_pageEvs (lt pre cur : String) (sc : List SlackEntry) (ev : Ev)
    (h : ev ∈ pageEvs lt pre cur sc) : evWithin lt pre ev := by
  rcases mem_pageEvs lt pre cur sc ev h with h1 | ⟨e, -, h2⟩
  · subst h1; exact ⟨rfl, rfl⟩
  · subst h2; exact ⟨rfl, rfl⟩

/-- Full inversion of one iteration of the page loop: a successful run with
positive fuel took exactly one of the six control paths. -/
theorem runPages_succ_inv (env : Env) (name lt pre : String) (ttq : ℤ)
    (fuel : Nat) (st : St) (cur : String) (o : LoopOut) (f : Nat) (s : St) (tr : List Ev)
    (h : runPages env name lt pre ttq (fuel + 1) st cur = some (o, f, s, tr)) :
    (∃ res sc,
      (env.respond st.reqIdx lt cur).ok = true ∧
      scanPage name lt pre st.idData st.dup (env.respond st.reqIdx lt cur).items
        = (.found res, sc) ∧
      o = .ret (res.1, some res.2) ∧ f = fuel ∧
      s = ⟨st.reqIdx + 1, st.clock + env.reqTime st.reqIdx, st.idData, st.dup⟩ ∧
      tr = pageEvs lt pre cur sc) ∨
    (∃ idD dp sc,
      (env.respond st.reqIdx lt cur).ok = true ∧
      scanPage name lt pre st.idData st.dup (env.respond st.reqIdx lt cur).items
        = (.cont idD dp, sc) ∧
      ttq < st.clock + env.reqTime st.reqIdx ∧
      o = .ret (pre, none) ∧ f = fuel ∧
      s = ⟨st.reqIdx + 1, st.clock + env.reqTime st.reqIdx, idD, dp⟩ ∧
      tr = pageEvs lt pre cur sc ++ [Ev.timedOut lt pre]) ∨
    (∃ idD dp sc tr',
      (env.respond st.reqIdx lt cur).ok = true ∧
      scanPage name lt pre st.idData st.dup (env.respond st.reqIdx lt cur).items
        = (.cont idD dp, sc) ∧
      ¬ttq < st.clock + env.reqTime st.reqIdx ∧
      cursorTruthy (env.respond st.reqIdx lt cur).next_cursor = true ∧
      runPages env name lt pre ttq fuel
        ⟨st.reqIdx + 1, st.clock + env.reqTime st.reqIdx, idD, dp⟩
        ((env.respond st.reqIdx lt cur).next_cursor.getD "") = some (o, f, s, tr') ∧
      tr = pageEvs lt pre cur sc ++ tr') ∨
    (∃ idD dp sc,
      (env.respond st.reqIdx lt cur).ok = true ∧
      scanPage name lt pre st.idData st.dup (env.respond st.reqIdx lt cur).items
        = (.cont idD dp, sc) ∧
      ¬ttq < st.clock + env.reqTime st.reqIdx ∧
      cursorTruthy (env.respond st.reqIdx lt cur).next_cursor = false ∧
      o = .done ∧ f = fuel ∧
      s = ⟨st.reqIdx + 1, st.clock + env.reqTime st.reqIdx, idD, dp⟩ ∧
      tr = pageEvs lt pre cur sc ++ [Ev.exhausted lt]) ∨
    (∃ d tr',
      (env.respond st.reqIdx lt cur).ok = false ∧
      (env.respond st.reqIdx lt cur).retry_after = some d ∧
      runPages env name lt pre ttq fuel
        ⟨st.reqIdx + 1, st.clock + env.reqTime st.reqIdx + d, st.idData, st.dup⟩ cur
        = some (o, f, s, tr') ∧
      tr = Ev.request lt cur (some 100) :: Ev.sleep d :: tr') ∨
    ((env.respond st.reqIdx lt cur).ok = false ∧
      (env.respond st.reqIdx lt cur).retry_after = none ∧
      o = .ret (pre, none) ∧ f = fuel ∧
      s = ⟨st.reqIdx + 1, st.clock + env.reqTime st.reqIdx, st.idData, st.dup⟩ ∧
      tr = [Ev.request lt cur (some 100), Ev.apiError lt pre]) := by
  cases hok : (env.respond st.reqIdx lt cur).ok with
  | true =>
    rcases hsc : scanPage name lt pre st.idData st.dup
        (env.respond st.reqIdx lt cur).items with ⟨out, sc⟩
    cases out with
    | found res =>
      rw [runPages_found env name lt pre ttq fuel st cur res sc hok hsc] at h
      simp only [Option.some.injEq, Prod.mk.injEq] at h
      exact Or.inl ⟨res, sc, rfl, rfl, h.1.symm, h.2.1.symm, h.2.2.1.symm, h.2.2.2.symm⟩
    | cont idD dp =>
      by_cases ht : ttq < st.clock + env.reqTime st.reqIdx
      · rw [runPages_timeout env name lt pre ttq fuel st cur idD dp sc hok hsc ht] at h
        simp only [Option.some.injEq, Prod.mk.injEq] at h
        exact Or.inr (Or.inl ⟨idD, dp, sc, rfl, rfl, ht,
          h.1.symm, h.2.1.symm, h.2.2.1.symm, h.2.2.2.symm⟩)
      · cases hcu : cursorTruthy (env.respond st.reqIdx lt cur).next_cursor with
        | true =>
          rw [runPages_next env name lt pre ttq fuel st cur idD dp sc hok hsc ht hcu] at h
          rcases hrec : runPages env name lt pre ttq fuel
              ⟨st.reqIdx + 1, st.clock + env.reqTime st.reqIdx, idD, dp⟩
              ((env.respond st.reqIdx lt cur).next_cursor.getD "") with - | ⟨o', f', s', tr'⟩
          · rw [hrec] at h; simp at h
          · rw [hrec] at h
            simp only [Option.map_some', Option.some.injEq, Prod.mk.injEq] at h
            refine Or.inr (Or.inr (Or.inl ⟨idD, dp, sc, tr', rfl, rfl, ht, rfl, ?_, h.2.2.2.symm⟩))
            rw [hrec, h.1, h.2.1, h.2.2.1]
        | false =>
          rw [runPages_break env name lt pre ttq fuel st cur idD dp sc hok hsc ht hcu] at h
          simp only [Option.some.injEq, Prod.mk.injEq] at h
          exact Or.inr (Or.inr (Or.inr (Or.inl ⟨idD, dp, sc, rfl, rfl, ht, rfl,
            h.1.symm, h.2.1.symm, h.2.2.1.symm, h.2.2.2.symm⟩)))
  | false =>
    cases hra : (env.respond st.reqIdx lt cur).retry_after with
    | some d =>
      rw [runPages_rate_limited env name lt pre ttq fuel st cur d hok hra] at h
      rcases hrec : runPages env name lt pre ttq fuel
          ⟨st.reqIdx + 1, st.clock + env.reqTime st.reqIdx + d, st.idData, st.dup⟩ cur
        with - | ⟨o', f', s', tr'⟩
      · rw [hrec] at h; simp at h
      · rw [hrec] at h
        simp only [Option.map_some', Option.some.injEq, Prod.mk.injEq] at h
        refine Or.inr (Or.inr (Or.inr (Or.inr (Or.inl ⟨d, tr', rfl, rfl, ?_, h.2.2.2.symm⟩))))
        rw [hrec, h.1, h.2.1, h.2.2.1]
    | none =>
      rw [runPages_error env name lt pre ttq fuel st cur hok hra] at h
      simp only [Option.some.injEq, Prod.mk.injEq] at h
      exact Or.inr (Or.inr (Or.inr (Or.inr (Or.inr ⟨rfl, rfl,
        h.1.symm, h.2.1.symm, h.2.2.1.symm, h.2.2.2.symm⟩))))

/-! ### Generic list helpers -/

theorem getLast?_cons_of_ne_nil {α : Type} (a : α) (l : List α) (h : l ≠ []) :
    (a :: l).getLast? = l.getLast? := by
  cases l with
  | nil => exact absurd rfl h
  | cons b m => exact List.getLast?_cons_cons

theorem getLast?_append_pred {α : Type} {P : α → Prop} (l m : List α)
    (hl : ∀ ev, l.getLast? = some ev → P ev) (hm : ∀ ev, m.getLast? = some ev → P ev) :
    ∀ ev, (l ++ m).getLast? = some ev → P ev := by
  intro ev h
  rw [List.getLast?_append] at h
  cases hm' : m.getLast? with
  | some x => rw [hm'] at h; simp only [Option.or_some, Option.some.injEq] at h; subst h; exact hm x hm'
  | none => rw [hm'] at h; simp only [Option.none_or] at h; exact hl ev h

theorem scan_mem_pageEvs (lt pre cur : String) (sc : List SlackEntry) (e : SlackEntry)
    (h : e ∈ sc) : Ev.scan lt pre e ∈ pageEvs lt pre cur sc :=
  List.mem_cons_of_mem _ (List.mem_map.mpr ⟨e, h, rfl⟩)

theorem pageEvs_getLast?_shape (lt pre cur : String) (sc : List SlackEntry) :
    ∀ ev, (pageEvs lt pre cur sc).getLast? = some ev →
      (∃ a b c, ev = Ev.request a b c) ∨ (∃ a b e, ev = Ev.scan a b e) := by
  intro ev h
  cases sc with
  | nil =>
    simp only [pageEvs, List.map_nil, List.getLast?_singleton, Option.some.injEq] at h
    exact Or.inl ⟨lt, cur, some 100, h.symm⟩
  | cons e' l =>
    rw [pageEvs, getLast?_cons_of_ne_nil _ _ (by simp), List.getLast?_map] at h
    cases hl : (e' :: l).getLast? with
    | none => rw [hl] at h; simp at h
    | some x =>
      rw [hl] at h
      simp only [Option.map_some', Option.some.injEq] at h
      exact Or.inr ⟨lt, pre, x, h.symm⟩

theorem scanMatches_cons_none (name : String) (ev : Ev) (tr : List Ev)
    (h : evMatchId name ev = none) :
    scanMatches name (ev :: tr) = scanMatches name tr := by
  simp [scanMatches, List.filterMap_cons, h]

theorem scanMatches_pageEvs (name lt pre cur : String) (sc : List SlackEntry) :
    scanMatches name (pageEvs lt pre cur sc) = pageMatches name lt sc := by
  rw [pageEvs, scanMatches_cons_none name (Ev.request lt cur (some 100))
    (sc.map (Ev.scan lt pre)) rfl, scanMatches_map_scan]

theorem scanMatches_append (name : String) (l m : List Ev) :
    scanMatches name (l ++ m) = scanMatches name l ++ scanMatches name m :=
  List.filterMap_append l m _

/-! ### Invariants of the page loop -/

theorem runPages_evWithin (env : Env) (name lt pre : String) (ttq : ℤ) :
    ∀ (fuel : Nat) (st : St) (cur : String) (o : LoopOut) (f : Nat) (s : St) (tr : List Ev),
      runPages env name lt pre ttq fuel st cur = some (o, f, s, tr) →
      ∀ ev ∈ tr, evWithin lt pre ev := by
  intro fuel
  induction fuel with
  | zero => intro st cur o f s tr h; simp [runPages_zero] at h
  | succ fuel ih =>
    intro st cur o f s tr h ev hev
    rcases runPages_succ_inv env name lt pre ttq fuel st cur o f s tr h with
      ⟨res, sc, -, -, -, -, -, htr⟩ |
      ⟨idD, dp, sc, -, -, -, -, -, -, htr⟩ |
      ⟨idD, dp, sc, tr', -, -, -, -, hrec, htr⟩ |
      ⟨idD, dp, sc, -, -, -, -, -, -, -, htr⟩ |
      ⟨d, tr', -, -, hrec, htr⟩ |
      ⟨-, -, -, -, -, htr⟩
    · subst htr; exact evWithin_pageEvs _ _ _ _ _ hev
    · subst htr
      rcases List.mem_append.mp hev with h1 | h2
      · exact evWithin_pageEvs _ _ _ _ _ h1
      · simp only [List.mem_singleton] at h2; subst h2; exact ⟨rfl, rfl⟩
    · subst htr
      rcases List.mem_append.mp hev with h1 | h2
      · exact evWithin_pageEvs _ _ _ _ _ h1
      · exact ih _ _ _ _ _ _ hrec ev h2
    · subst htr
      rcases List.mem_append.mp hev with h1 | h2
      · exact evWithin_pageEvs _ _ _ _ _ h1
      · simp only [List.mem_singleton] at h2; subst h2; exact rfl
    · subst htr
      rcases List.mem_cons.mp hev with h1 | h2
      · subst h1; exact ⟨rfl, rfl⟩
      · rcases List.mem_cons.mp h2 with h3 | h4
        · subst h3; exact trivial
        · exact ih _ _ _ _ _ _ hrec ev h4
    · subst htr
      rcases List.mem_cons.mp hev with h1 | h2
      · subst h1; exact ⟨rfl, rfl⟩
      · simp only [List.mem_singleton] at h2; subst h2; exact ⟨rfl, rfl⟩

theorem runPages_head (env : Env) (name lt pre : String) (ttq : ℤ)
    (fuel : Nat) (st : St) (cur : String) (o : LoopOut) (f : Nat) (s : St) (tr : List Ev)
    (h : runPages env name lt pre ttq fuel st cur = some (o, f, s, tr)) :
    ∃ rest, tr = Ev.request lt cur (some 100) :: rest := by
  cases fuel with
  | zero => simp [runPages_zero] at h
  | succ fuel =>
    rcases runPages_succ_inv env name lt pre ttq fuel st cur o f s tr h with
      ⟨res, sc, -, -, -, -, -, htr⟩ |
      ⟨idD, dp, sc, -, -, -, -, -, -, htr⟩ |
      ⟨idD, dp, sc, tr', -, -, -, -, -, htr⟩ |
      ⟨idD, dp, sc, -, -, -, -, -, -, -, htr⟩ |
      ⟨d, tr', -, -, -, htr⟩ |
      ⟨-, -, -, -, -, htr⟩ <;>
    subst htr <;> exact ⟨_, rfl⟩

theorem scan_mem_pageEvs_inv (lt pre cur : String) (sc : List SlackEntry)
    (l p : String) (e : SlackEntry) (hev : Ev.scan l p e ∈ pageEvs lt pre cur sc) :
    l = lt ∧ p = pre ∧ e ∈ sc := by
  rcases mem_pageEvs lt pre cur sc _ hev with h1 | ⟨e', he', h2⟩
  · exact absurd h1 (by simp)
  · injection h2 with h3 h4 h5
    subst h3; subst h4; subst h5
    exact ⟨rfl, rfl, he'⟩

theorem runPages_exact (env : Env) (name lt pre : String) (ttq : ℤ) :
    ∀ (fuel : Nat) (st : St) (cur : String) (o : LoopOut) (f : Nat) (s : St) (tr : List Ev)
      (l p : String) (e : SlackEntry),
      runPages env name lt pre ttq fuel st cur = some (o, f, s, tr) →
      Ev.scan l p e ∈ tr → e.name = name →
      o = .ret (pre, some e.id) ∧ tr.getLast? = some (Ev.scan lt pre e) := by
  intro fuel
  induction fuel with
  | zero => intro st cur o f s tr l p e h _ _; simp [runPages_zero] at h
  | succ fuel ih =>
    intro st cur o f s tr l p e h hev hname
    rcases runPages_succ_inv env name lt pre ttq fuel st cur o f s tr h with
      ⟨res, sc, -, hsc, ho, -, -, htr⟩ |
      ⟨idD, dp, sc, -, hsc, -, -, -, -, htr⟩ |
      ⟨idD, dp, sc, tr', -, hsc, -, -, hrec, htr⟩ |
      ⟨idD, dp, sc, -, hsc, -, -, -, -, -, htr⟩ |
      ⟨d, tr', -, -, hrec, htr⟩ |
      ⟨-, -, -, -, -, htr⟩
    · subst htr
      obtain ⟨-, -, hmem⟩ := scan_mem_pageEvs_inv lt pre cur sc l p e hev
      obtain ⟨h1, h2⟩ := scanPage_mem_name name lt pre _ _ _ _ _ e hsc hmem hname
      injection h1 with hres
      subst hres
      have hne : sc.map (Ev.scan lt pre) ≠ [] := by
        intro hc
        rw [List.map_eq_nil_iff] at hc
        subst hc
        simp at hmem
      constructor
      · rw [ho]
      · rw [pageEvs, getLast?_cons_of_ne_nil _ _ hne, List.getLast?_map, h2]
        rfl
    · subst htr
      rcases List.mem_append.mp hev with h1 | h2
      · obtain ⟨-, -, hmem⟩ := scan_mem_pageEvs_inv lt pre cur sc l p e h1
        have := (scanPage_mem_name name lt pre _ _ _ _ _ e hsc hmem hname).1
        exact absurd this (by simp)
      · simp at h2
    · subst htr
      rcases List.mem_append.mp hev with h1 | h2
      · obtain ⟨-, -, hmem⟩ := scan_mem_pageEvs_inv lt pre cur sc l p e h1
        have := (scanPage_mem_name name lt pre _ _ _ _ _ e hsc hmem hname).1
        exact absurd this (by simp)
      · obtain ⟨ho', hlast⟩ := ih _ _ _ _ _ _ l p e hrec h2 hname
        refine ⟨ho', ?_⟩
        rw [List.getLast?_append, hlast]
        rfl
    · subst htr
      rcases List.mem_append.mp hev with h1 | h2
      · obtain ⟨-, -, hmem⟩ := scan_mem_pageEvs_inv lt pre cur sc l p e h1
        have := (scanPage_mem_name name lt pre _ _ _ _ _ e hsc hmem hname).1
        exact absurd this (by simp)
      · simp at h2
    · subst htr
      rcases List.mem_cons.mp hev with h1 | h2
      · exact absurd h1 (by simp)
      · rcases List.mem_cons.mp h2 with h3 | h4
        · exact absurd h3 (by simp)
        · obtain ⟨ho', hlast⟩ := ih _ _ _ _ _ _ l p e hrec h4 hname
          have hne : tr' ≠ [] := List.ne_nil_of_mem h4
          refine ⟨ho', ?_⟩
          rw [getLast?_cons_of_ne_nil _ _ (by simp), getLast?_cons_of_ne_nil _ _ hne]
          exact hlast
    · subst htr
      simp at hev

theorem runPages_ret (env : Env) (name lt pre : String) (ttq : ℤ) :
    ∀ (fuel : Nat) (st : St) (cur : String) (p : String) (oid : Option String)
      (f : Nat) (s : St) (tr : List Ev),
      runPages env name lt pre ttq fuel st cur = some (.ret (p, oid), f, s, tr) →
      p = pre ∧
        (oid = none ∨ ∃ e, oid = some e.id ∧ e.name = name ∧ Ev.scan lt pre e ∈ tr) := by
  intro fuel
  induction fuel with
  | zero => intro st cur p oid f s tr h; simp [runPages_zero] at h
  | succ fuel ih =>
    intro st cur p oid f s tr h
    rcases runPages_succ_inv env name lt pre ttq fuel st cur _ f s tr h with
      ⟨res, sc, -, hsc, ho, -, -, htr⟩ |
      ⟨idD, dp, sc, -, -, -, ho, -, -, htr⟩ |
      ⟨idD, dp, sc, tr', -, -, -, -, hrec, htr⟩ |
      ⟨idD, dp, sc, -, -, -, -, ho, -, -, htr⟩ |
      ⟨d, tr', -, -, hrec, htr⟩ |
      ⟨-, -, ho, -, -, htr⟩
    · subst htr
      injection ho with hpo
      injection hpo with hp hoid
      obtain ⟨e, hename, hres, -, hmem⟩ := scanPage_found name lt pre _ _ _ _ _ hsc
      subst hres
      refine ⟨hp, Or.inr ⟨e, hoid, hename, scan_mem_pageEvs lt pre cur sc e hmem⟩⟩
    · subst htr
      injection ho with hpo
      injection hpo with hp hoid
      exact ⟨hp, Or.inl hoid⟩
    · subst htr
      obtain ⟨hp, hrest⟩ := ih _ _ _ _ _ _ _ hrec
      refine ⟨hp, ?_⟩
      rcases hrest with h1 | ⟨e, h1, h2, h3⟩
      · exact Or.inl h1
      · exact Or.inr ⟨e, h1, h2, List.mem_append_right _ h3⟩
    · subst htr
      exact absurd ho (by simp)
    · subst htr
      obtain ⟨hp, hrest⟩ := ih _ _ _ _ _ _ _ hrec
      refine ⟨hp, ?_⟩
      rcases hrest with h1 | ⟨e, h1, h2, h3⟩
      · exact Or.inl h1
      · exact Or.inr ⟨e, h1, h2, List.mem_cons_of_mem _ (List.mem_cons_of_mem _ h3)⟩
    · subst htr
      injection ho with hpo
      injection hpo with hp hoid
      exact ⟨hp, Or.inl hoid⟩

theorem runPages_done (env : Env) (name lt pre : String) (ttq : ℤ) :
    ∀ (fuel : Nat) (st : St) (cur : String) (f : Nat) (s : St) (tr : List Ev),
      runPages env name lt pre ttq fuel st cur = some (.done, f, s, tr) →
      (s.idData, s.dup) = List.foldl (updCand pre) (st.idData, st.dup) (scanMatches name tr) ∧
      ∃ tr0, tr = tr0 ++ [Ev.exhausted lt] := by
  intro fuel
  induction fuel with
  | zero => intro st cur f s tr h; simp [runPages_zero] at h
  | succ fuel ih =>
    intro st cur f s tr h
    rcases runPages_succ_inv env name lt pre ttq fuel st cur _ f s tr h with
      ⟨res, sc, -, -, ho, -, -, -⟩ |
      ⟨idD, dp, sc, -, -, -, ho, -, -, -⟩ |
      ⟨idD, dp, sc, tr', -, hsc, -, -, hrec, htr⟩ |
      ⟨idD, dp, sc, -, hsc, -, -, -, -, hs, htr⟩ |
      ⟨d, tr', -, -, hrec, htr⟩ |
      ⟨-, -, ho, -, -, -⟩
    · exact absurd ho (by simp)
    · exact absurd ho (by simp)
    · subst htr
      obtain ⟨hfold, tr0', htr'⟩ := ih _ _ _ _ _ hrec
      have hstep := scanPage_cont name lt pre _ _ _ _ _ _ hsc
      constructor
      · rw [scanMatches_append, scanMatches_pageEvs, List.foldl_append, ← hstep]
        simpa using hfold
      · exact ⟨pageEvs lt pre cur sc ++ tr0', by rw [htr', List.append_assoc]⟩
    · subst htr
      have hstep := scanPage_cont name lt pre _ _ _ _ _ _ hsc
      constructor
      · rw [scanMatches_append, scanMatches_pageEvs]
        have : scanMatches name [Ev.exhausted lt] = [] := rfl
        rw [this, List.append_nil, hs]
        exact hstep
      · exact ⟨pageEvs lt pre cur sc, rfl⟩
    · subst htr
      obtain ⟨hfold, tr0', htr'⟩ := ih _ _ _ _ _ hrec
      constructor
      · rw [scanMatches_cons_none name (Ev.request lt cur (some 100)) _ rfl,
          scanMatches_cons_none name (Ev.sleep d) _ rfl]
        simpa using hfold
      · exact ⟨Ev.request lt cur (some 100) :: Ev.sleep d :: tr0', by simp [htr']⟩
    · exact absurd ho (by simp)

theorem runPages_timedOut_mem (env : Env) (name lt pre : String) (ttq : ℤ) :
    ∀ (fuel : Nat) (st : St) (cur : String) (o : LoopOut) (f : Nat) (s : St) (tr : List Ev)
      (l p : String),
      runPages env name lt pre ttq fuel st cur = some (o, f, s, tr) →
      Ev.timedOut l p ∈ tr →
      l = lt ∧ p = pre ∧ o = .ret (pre, none) ∧
      ∃ tr0, tr = tr0 ++ [Ev.timedOut lt pre] ∧
        ∀ ev, tr0.getLast? = some ev →
          (∃ a b c, ev = Ev.request a b c) ∨ (∃ a b e, ev = Ev.scan a b e) := by
  intro fuel
  induction fuel with
  | zero => intro st cur o f s tr l p h _; simp [runPages_zero] at h
  | succ fuel ih =>
    intro st cur o f s tr l p h hev
    rcases runPages_succ_inv env name lt pre ttq fuel st cur o f s tr h with
      ⟨res, sc, -, -, -, -, -, htr⟩ |
      ⟨idD, dp, sc, -, -, -, ho, -, -, htr⟩ |
      ⟨idD, dp, sc, tr', -, -, -, -, hrec, htr⟩ |
      ⟨idD, dp, sc, -, -, -, -, -, -, -, htr⟩ |
      ⟨d, tr', -, -, hrec, htr⟩ |
      ⟨-, -, -, -, -, htr⟩
    · subst htr
      rcases mem_pageEvs lt pre cur sc _ hev with h1 | ⟨e', -, h2⟩
      · exact absurd h1 (by simp)
      · exact absurd h2 (by simp)
    · subst htr
      rcases List.mem_append.mp hev with h1 | h2
      · rcases mem_pageEvs lt pre cur sc _ h1 with h3 | ⟨e', -, h4⟩
        · exact absurd h3 (by simp)
        · exact absurd h4 (by simp)
      · simp only [List.mem_singleton] at h2
        injection h2 with h3 h4
        exact ⟨h3, h4, ho, pageEvs lt pre cur sc, rfl,
          pageEvs_getLast?_shape lt pre cur sc⟩
    · subst htr
      rcases List.mem_append.mp hev with h1 | h2
      · rcases mem_pageEvs lt pre cur sc _ h1 with h3 | ⟨e', -, h4⟩
        · exact absurd h3 (by simp)
        · exact absurd h4 (by simp)
      · obtain ⟨hl, hp, ho, tr0', htr', hsh⟩ := ih _ _ _ _ _ _ l p hrec h2
        refine ⟨hl, hp, ho, pageEvs lt pre cur sc ++ tr0', by rw [htr', List.append_assoc], ?_⟩
        exact getLast?_append_pred _ _ (pageEvs_getLast?_shape lt pre cur sc) hsh
    · subst htr
      rcases List.mem_append.mp hev with h1 | h2
      · rcases mem_pageEvs lt pre cur sc _ h1 with h3 | ⟨e', -, h4⟩
        · exact absurd h3 (by simp)
        · exact absurd h4 (by simp)
      · simp at h2
    · subst htr
      rcases List.mem_cons.mp hev with h1 | h2
      · exact absurd h1 (by simp)
      · rcases List.mem_cons.mp h2 with h3 | h4
        · exact absurd h3 (by simp)
        · obtain ⟨hl, hp, ho, tr0', htr', hsh⟩ := ih _ _ _ _ _ _ l p hrec h4
          obtain ⟨rest, hhead⟩ := runPages_head env name lt pre ttq fuel _ _ _ _ _ _ hrec
          have hne : tr0' ≠ [] := by
            intro hc
            subst hc
            rw [List.nil_append] at htr'
            rw [htr'] at hhead
            exact absurd (List.head_eq_of_cons_eq hhead.symm) (by simp)
          refine ⟨hl, hp, ho, Ev.request lt cur (some 100) :: Ev.sleep d :: tr0',
            by simp [htr'], ?_⟩
          intro ev hevl
          rw [getLast?_cons_of_ne_nil _ _ (by simp),
            getLast?_cons_of_ne_nil _ _ hne] at hevl
          exact hsh ev hevl
    · subst htr
      simp at hev

theorem runPages_apiError_mem (env : Env) (name lt pre : String) (ttq : ℤ) :
    ∀ (fuel : Nat) (st : St) (cur : String) (o : LoopOut) (f : Nat) (s : St) (tr : List Ev)
      (l p : String),
      runPages env name lt pre ttq fuel st cur = some (o, f, s, tr) →
      Ev.apiError l p ∈ tr →
      l = lt ∧ p = pre ∧ o = .ret (pre, none) ∧
      ∃ tr0 cur', tr = tr0 ++ [Ev.request lt cur' (some 100), Ev.apiError lt pre] := by
  intro fuel
  induction fuel with
  | zero => intro st cur o f s tr l p h _; simp [runPages_zero] at h
  | succ fuel ih =>
    intro st cur o f s tr l p h hev
    rcases runPages_succ_inv env name lt pre ttq fuel st cur o f s tr h with
      ⟨res, sc, -, -, -, -, -, htr⟩ |
      ⟨idD, dp, sc, -, -, -, -, -, -, htr⟩ |
      ⟨idD, dp, sc, tr', -, -, -, -, hrec, htr⟩ |
      ⟨idD, dp, sc, -, -, -, -, -, -, -, htr⟩ |
      ⟨d, tr', -, -, hrec, htr⟩ |
      ⟨-, -, ho, -, -, htr⟩
    · subst htr
      rcases mem_pageEvs lt pre cur sc _ hev with h1 | ⟨e', -, h2⟩
      · exact absurd h1 (by simp)
      · exact absurd h2 (by simp)
    · subst htr
      rcases List.mem_append.mp hev with h1 | h2
      · rcases mem_pageEvs lt pre cur sc _ h1 with h3 | ⟨e', -, h4⟩
        · exact absurd h3 (by simp)
        · exact absurd h4 (by simp)
      · simp at h2
    · subst htr
      rcases List.mem_append.mp hev with h1 | h2
      · rcases mem_pageEvs lt pre cur sc _ h1 with h3 | ⟨e', -, h4⟩
        · exact absurd h3 (by simp)
        · exact absurd h4 (by simp)
      · obtain ⟨hl, hp, ho, tr0', cur', htr'⟩ := ih _ _ _ _ _ _ l p hrec h2
        exact ⟨hl, hp, ho, pageEvs lt pre cur sc ++ tr0', cur',
          by rw [htr', List.append_assoc]⟩
    · subst htr
      rcases List.mem_append.mp hev with h1 | h2
      · rcases mem_pageEvs lt pre cur sc _ h1 with h3 | ⟨e', -, h4⟩
        · exact absurd h3 (by simp)
        · exact absurd h4 (by simp)
      · simp at h2
    · subst htr
      rcases List.mem_cons.mp hev with h1 | h2
      · exact absurd h1 (by simp)
      · rcases List.mem_cons.mp h2 with h3 | h4
        · exact absurd h3 (by simp)
        · obtain ⟨hl, hp, ho, tr0', cur', htr'⟩ := ih _ _ _ _ _ _ l p hrec h4
          exact ⟨hl, hp, ho, Ev.request lt cur (some 100) :: Ev.sleep d :: tr0', cur',
            by simp [htr']⟩
    · subst htr
      simp only [List.mem_cons, List.mem_singleton] at hev
      rcases hev with h1 | h1 | h1
      · exact absurd h1 (by simp)
      · injection h1 with h2 h3
        exact ⟨h2, h3, ho, [], cur, rfl⟩
      · simp at h1

theorem runPages_rl (env : Env) (name lt pre : String) (ttq : ℤ)
    (hrl : ∀ i l c, (env.respond i l c).ok = false ∧
      ∃ d, (env.respond i l c).retry_after = some d) :
    ∀ (fuel : Nat) (st : St) (cur : String),
      runPages env name lt pre ttq fuel st cur = none := by
  intro fuel
  induction fuel with
  | zero => intro st cur; rfl
  | succ fuel ih =>
    intro st cur
    obtain ⟨hok, d, hra⟩ := hrl st.reqIdx lt cur
    rw [runPages_rate_limited env name lt pre ttq fuel st cur d hok hra, ih]
    rfl

/-! ### Inversion and invariants of the directory-type loop -/

theorem runTypes_cons_inv (env : Env) (name : String) (ttq : ℤ)
    (lt rn pre : String) (rest : List (String × String × String))
    (fuel : Nat) (st : St) (prev : String) (r : String × Option String) (tr : List Ev)
    (h : runTypes env name ttq ((lt, rn, pre) :: rest) fuel st prev = some (r, tr)) :
    (∃ f1 st1, runPages env name lt pre ttq fuel st "" = some (.ret r, f1, st1, tr)) ∨
    (∃ f1 st1, runPages env name lt pre ttq fuel st "" = some (.done, f1, st1, tr) ∧
      st1.dup = true ∧ r = (pre, none)) ∨
    (∃ f1 st1 c, runPages env name lt pre ttq fuel st "" = some (.done, f1, st1, tr) ∧
      st1.dup = false ∧ st1.idData = some c ∧ r = (c.1, some c.2)) ∨
    (∃ f1 st1 tr1 tr2,
      runPages env name lt pre ttq fuel st "" = some (.done, f1, st1, tr1) ∧
      st1.dup = false ∧ st1.idData = none ∧
      runTypes env name ttq rest f1 st1 pre = some (r, tr2) ∧ tr = tr1 ++ tr2) := by
  rw [runTypes] at h
  rcases hrp : runPages env name lt pre ttq fuel st "" with - | ⟨o, f1, st1, trp⟩
  · rw [hrp] at h; exact absurd h (by simp)
  · rw [hrp] at h
    cases o with
    | ret r' =>
      simp only [Option.some.injEq, Prod.mk.injEq] at h
      refine Or.inl ⟨f1, st1, ?_⟩
      rw [h.1, h.2]
    | done =>
      dsimp only at h
      cases hdup : st1.dup with
      | true =>
        rw [if_pos hdup] at h
        simp only [Option.some.injEq, Prod.mk.injEq] at h
        refine Or.inr (Or.inl ⟨f1, st1, ?_, hdup, h.1.symm⟩)
        rw [h.2]
      | false =>
        rw [if_neg (by simp [hdup])] at h
        cases hid : st1.idData with
        | some c =>
          rw [hid] at h
          dsimp only at h
          simp only [Option.some.injEq, Prod.mk.injEq] at h
          refine Or.inr (Or.inr (Or.inl ⟨f1, st1, c, ?_, hdup, hid, h.1.symm⟩))
          rw [h.2]
        | none =>
          rw [hid] at h
          dsimp only at h
          rcases hrt : runTypes env name ttq rest f1 st1 pre with - | ⟨r2, tr2⟩
          · rw [hrt] at h; exact absurd h (by simp)
          · rw [hrt] at h
            dsimp only at h
            simp only [Option.some.injEq, Prod.mk.injEq] at h
            refine Or.inr (Or.inr (Or.inr ⟨f1, st1, trp, tr2, rfl, hdup, hid, ?_, h.2.symm⟩))
            rw [hrt, h.1]

theorem runTypes_head (env : Env) (name : String) (ttq : ℤ) :
    ∀ (tys : List (String × String × String)) (fuel : Nat) (st : St) (prev : String)
      (r : String × Option String) (tr : List Ev),
      runTypes env name ttq tys fuel st prev = some (r, tr) →
      tr = [] ∨ ∃ a b c rest', tr = Ev.request a b c :: rest' := by
  intro tys fuel st prev r tr h
  cases tys with
  | nil =>
    simp only [runTypes, Option.some.injEq, Prod.mk.injEq] at h
    exact Or.inl h.2.symm
  | cons head rest =>
    obtain ⟨lt, rn, pre⟩ := head
    rcases runTypes_cons_inv env name ttq lt rn pre rest fuel st prev r tr h with
      ⟨f1, st1, hrp⟩ | ⟨f1, st1, hrp, -, -⟩ | ⟨f1, st1, c, hrp, -, -, -⟩ |
      ⟨f1, st1, tr1, tr2, hrp, -, -, -, htr⟩
    · obtain ⟨rest', hh⟩ := runPages_head env name lt pre ttq fuel st "" _ _ _ _ hrp
      exact Or.inr ⟨lt, "", some 100, rest', hh⟩
    · obtain ⟨rest', hh⟩ := runPages_head env name lt pre ttq fuel st "" _ _ _ _ hrp
      exact Or.inr ⟨lt, "", some 100, rest', hh⟩
    · obtain ⟨rest', hh⟩ := runPages_head env name lt pre ttq fuel st "" _ _ _ _ hrp
      exact Or.inr ⟨lt, "", some 100, rest', hh⟩
    · obtain ⟨rest', hh⟩ := runPages_head env name lt pre ttq fuel st "" _ _ _ _ hrp
      subst htr
      rw [hh]
      exact Or.inr ⟨lt, "", some 100, rest' ++ tr2, by simp⟩

theorem runTypes_exact (env : Env) (name : String) (ttq : ℤ) :
    ∀ (tys : List (String × String × String)) (fuel : Nat) (st : St) (prev : String)
      (p : String) (oid : Option String) (tr : List Ev) (l pr : String) (e : SlackEntry),
      runTypes env name ttq tys fuel st prev = some ((p, oid), tr) →
      Ev.scan l pr e ∈ tr → e.name = name →
      (p, oid) = (pr, some e.id) ∧ tr.getLast? = some (Ev.scan l pr e) := by
  intro tys
  induction tys with
  | nil =>
    intro fuel st prev p oid tr l pr e h hev _
    simp only [runTypes, Option.some.injEq, Prod.mk.injEq] at h
    rw [← h.2] at hev
    simp at hev
  | cons head rest ih =>
    obtain ⟨lt, rn, pre⟩ := head
    intro fuel st prev p oid tr l pr e h hev hname
    rcases runTypes_cons_inv env name ttq lt rn pre rest fuel st prev _ tr h with
      ⟨f1, st1, hrp⟩ | ⟨f1, st1, hrp, -, -⟩ | ⟨f1, st1, c, hrp, -, -, -⟩ |
      ⟨f1, st1, tr1, tr2, hrp, -, -, hrt, htr⟩
    · obtain ⟨hl, hpr⟩ :=
        runPages_evWithin env name lt pre ttq fuel st "" _ _ _ _ hrp _ hev
      obtain ⟨ho, hlast⟩ :=
        runPages_exact env name lt pre ttq fuel st "" _ _ _ _ l pr e hrp hev hname
      injection ho with hro
      rw [hl, hpr]
      exact ⟨hro, hlast⟩
    · obtain ⟨ho, -⟩ :=
        runPages_exact env name lt pre ttq fuel st "" _ _ _ _ l pr e hrp hev hname
      exact absurd ho (by simp)
    · obtain ⟨ho, -⟩ :=
        runPages_exact env name lt pre ttq fuel st "" _ _ _ _ l pr e hrp hev hname
      exact absurd ho (by simp)
    · subst htr
      rcases List.mem_append.mp hev with h1 | h2
      · obtain ⟨ho, -⟩ :=
          runPages_exact env name lt pre ttq fuel st "" _ _ _ _ l pr e hrp h1 hname
        exact absurd ho (by simp)
      · obtain ⟨hres, hlast⟩ := ih f1 st1 pre p oid tr2 l pr e hrt h2 hname
        refine ⟨hres, ?_⟩
        rw [List.getLast?_append, hlast]
        rfl

theorem runTypes_timedOut (env : Env) (name : String) (ttq : ℤ) :
    ∀ (tys : List (String × String × String)) (fuel : Nat) (st : St) (prev : String)
      (p : String) (oid : Option String) (tr : List Ev) (l pr : String),
      runTypes env name ttq tys fuel st prev = some ((p, oid), tr) →
      Ev.timedOut l pr ∈ tr →
      (p, oid) = (pr, none) ∧
      ∃ tr0, tr = tr0 ++ [Ev.timedOut l pr] ∧
        ∀ ev, tr0.getLast? = some ev →
          (∃ a b c, ev = Ev.request a b c) ∨ (∃ a b e, ev = Ev.scan a b e) := by
  intro tys
  induction tys with
  | nil =>
    intro fuel st prev p oid tr l pr h hev
    simp only [runTypes, Option.some.injEq, Prod.mk.injEq] at h
    rw [← h.2] at hev
    simp at hev
  | cons head rest ih =>
    obtain ⟨lt, rn, pre⟩ := head
    intro fuel st prev p oid tr l pr h hev
    rcases runTypes_cons_inv env name ttq lt rn pre rest fuel st prev _ tr h with
      ⟨f1, st1, hrp⟩ | ⟨f1, st1, hrp, -, -⟩ | ⟨f1, st1, c, hrp, -, -, -⟩ |
      ⟨f1, st1, tr1, tr2, hrp, -, -, hrt, htr⟩
    · obtain ⟨hl, hp, ho, tr0, htr0, hsh⟩ :=
        runPages_timedOut_mem env name lt pre ttq fuel st "" _ _ _ _ l pr hrp hev
      injection ho with hro
      rw [hl, hp]
      exact ⟨hro, tr0, by rw [htr0], hsh⟩
    · obtain ⟨-, -, ho, -⟩ :=
        runPages_timedOut_mem env name lt pre ttq fuel st "" _ _ _ _ l pr hrp hev
      exact absurd ho (by simp)
    · obtain ⟨-, -, ho, -⟩ :=
        runPages_timedOut_mem env name lt pre ttq fuel st "" _ _ _ _ l pr hrp hev
      exact absurd ho (by simp)
    · subst htr
      rcases List.mem_append.mp hev with h1 | h2
      · obtain ⟨-, -, ho, -⟩ :=
          runPages_timedOut_mem env name lt pre ttq fuel st "" _ _ _ _ l pr hrp h1
        exact absurd ho (by simp)
      · obtain ⟨hres, tr0, htr0, hsh⟩ := ih f1 st1 pre p oid tr2 l pr hrt h2
        have hne : tr0 ≠ [] := by
          rcases runTypes_head env name ttq rest f1 st1 pre _ _ hrt with h3 | ⟨a, b, c, rest', h3⟩
          · rw [h3] at h2; simp at h2
          · intro hc
            subst hc
            rw [List.nil_append] at htr0
            rw [htr0] at h3
            exact absurd (List.head_eq_of_cons_eq h3.symm) (by simp)
        obtain ⟨y, hy⟩ : ∃ y, tr0.getLast? = some y := by
          rw [← Option.isSome_iff_exists, List.getLast?_isSome]
          exact hne
        refine ⟨hres, tr1 ++ tr0, by rw [htr0, List.append_assoc], ?_⟩
        intro ev hevl
        rw [List.getLast?_append, hy] at hevl
        simp only [Option.or_some, Option.some.injEq] at hevl
        subst hevl
        exact hsh y hy

theorem runTypes_apiError (env : Env) (name : String) (ttq : ℤ) :
    ∀ (tys : List (String × String × String)) (fuel : Nat) (st : St) (prev : String)
      (p : String) (oid : Option String) (tr : List Ev) (l pr : String),
      runTypes env name ttq tys fuel st prev = some ((p, oid), tr) →
      Ev.apiError l pr ∈ tr →
      (p, oid) = (pr, none) ∧
      ∃ tr0 cur', tr = tr0 ++ [Ev.request l cur' (some 100), Ev.apiError l pr] := by
  intro tys
  induction tys with
  | nil =>
    intro fuel st prev p oid tr l pr h hev
    simp only [runTypes, Option.some.injEq, Prod.mk.injEq] at h
    rw [← h.2] at hev
    simp at hev
  | cons head rest ih =>
    obtain ⟨lt, rn, pre⟩ := head
    intro fuel st prev p oid tr l pr h hev
    rcases runTypes_cons_inv env name ttq lt rn pre rest fuel st prev _ tr h with
      ⟨f1, st1, hrp⟩ | ⟨f1, st1, hrp, -, -⟩ | ⟨f1, st1, c, hrp, -, -, -⟩ |
      ⟨f1, st1, tr1, tr2, hrp, -, -, hrt, htr⟩
    · obtain ⟨hl, hp, ho, tr0, cur', htr0⟩ :=
        runPages_apiError_mem env name lt pre ttq fuel st "" _ _ _ _ l pr hrp hev
      injection ho with hro
      rw [hl, hp]
      exact ⟨hro, tr0, cur', by rw [htr0]⟩
    · obtain ⟨-, -, ho, -⟩ :=
        runPages_apiError_mem env name lt pre ttq fuel st "" _ _ _ _ l pr hrp hev
      exact absurd ho (by simp)
    · obtain ⟨-, -, ho, -⟩ :=
        runPages_apiError_mem env name lt pre ttq fuel st "" _ _ _ _ l pr hrp hev
      exact absurd ho (by simp)
    · subst htr
      rcases List.mem_append.mp hev with h1 | h2
      · obtain ⟨-, -, ho, -⟩ :=
          runPages_apiError_mem env name lt pre ttq fuel st "" _ _ _ _ l pr hrp h1
        exact absurd ho (by simp)
      · obtain ⟨hres, tr0, cur', htr0⟩ := ih f1 st1 pre p oid tr2 l pr hrt h2
        exact ⟨hres, tr1 ++ tr0, cur', by rw [htr0, List.append_assoc]⟩

theorem runTypes_limit (env : Env) (name : String) (ttq : ℤ) :
    ∀ (tys : List (String × String × String)) (fuel : Nat) (st : St) (prev : String)
      (r : String × Option String) (tr : List Ev),
      runTypes env name ttq tys fuel st prev = some (r, tr) →
      ∀ a b c, Ev.request a b c ∈ tr → c = some 100 := by
  intro tys
  induction tys with
  | nil =>
    intro fuel st prev r tr h a b c hev
    simp only [runTypes, Option.some.injEq, Prod.mk.injEq] at h
    rw [← h.2] at hev
    simp at hev
  | cons head rest ih =>
    obtain ⟨lt, rn, pre⟩ := head
    intro fuel st prev r tr h a b c hev
    rcases runTypes_cons_inv env name ttq lt rn pre rest fuel st prev _ tr h with
      ⟨f1, st1, hrp⟩ | ⟨f1, st1, hrp, -, -⟩ | ⟨f1, st1, c1, hrp, -, -, -⟩ |
      ⟨f1, st1, tr1, tr2, hrp, -, -, hrt, htr⟩
    · exact (runPages_evWithin env name lt pre ttq fuel st "" _ _ _ _ hrp _ hev).2
    · exact (runPages_evWithin env name lt pre ttq fuel st "" _ _ _ _ hrp _ hev).2
    · exact (runPages_evWithin env name lt pre ttq fuel st "" _ _ _ _ hrp _ hev).2
    · subst htr
      rcases List.mem_append.mp hev with h1 | h2
      · exact (runPages_evWithin env name lt pre ttq fuel st "" _ _ _ _ hrp _ h1).2
      · exact ih f1 st1 pre r tr2 hrt a b c h2

theorem isBlockSeq_weaken (m : List String) (o : String) (os : List String)
    (h : isBlockSeq m os = true) : isBlockSeq m (o :: os) = true := by
  cases m with
  | nil => simp [isBlockSeq]
  | cons x xs =>
    rw [isBlockSeq]
    rw [Bool.or_eq_true]
    exact Or.inr h

theorem isBlockSeq_all_left (o : String) (os : List String) :
    ∀ (l m : List String), (∀ x ∈ l, x = o) → isBlockSeq m (o :: os) = true →
      isBlockSeq (l ++ m) (o :: os) = true := by
  intro l
  induction l with
  | nil => intro m _ hm; simpa using hm
  | cons x xs ih =>
    intro m hall hm
    rw [List.cons_append, isBlockSeq, Bool.or_eq_true]
    refine Or.inl ?_
    rw [Bool.and_eq_true]
    exact ⟨decide_eq_true (hall x (List.mem_cons_self x xs)),
      ih m (fun y hy => hall y (List.mem_cons_of_mem x hy)) hm⟩

theorem requestTypes_all_eq (lt pre : String) (tr : List Ev)
    (h : ∀ ev ∈ tr, evWithin lt pre ev) : ∀ x ∈ requestTypes tr, x = lt := by
  intro x hx
  rcases List.mem_filterMap.mp hx with ⟨ev, hev, hx'⟩
  cases ev with
  | request a b c =>
    have := (h _ hev).1
    simp only [evRequestType, Option.some.injEq] at hx'
    rw [← hx']
    exact this
  | scan a b e => simp [evRequestType] at hx'
  | sleep d => simp [evRequestType] at hx'
  | apiError a b => simp [evRequestType] at hx'
  | timedOut a b => simp [evRequestType] at hx'
  | exhausted a => simp [evRequestType] at hx'

theorem requestTypes_append (l m : List Ev) :
    requestTypes (l ++ m) = requestTypes l ++ requestTypes m :=
  List.filterMap_append l m _

theorem runTypes_blockseq (env : Env) (name : String) (ttq : ℤ) :
    ∀ (tys : List (String × String × String)) (fuel : Nat) (st : St) (prev : String)
      (r : String × Option String) (tr : List Ev),
      runTypes env name ttq tys fuel st prev = some (r, tr) →
      isBlockSeq (requestTypes tr) (tys.map (fun x => x.1)) = true := by
  intro tys
  induction tys with
  | nil =>
    intro fuel st prev r tr h
    simp only [runTypes, Option.some.injEq, Prod.mk.injEq] at h
    rw [← h.2]
    simp [isBlockSeq, requestTypes]
  | cons head rest ih =>
    obtain ⟨lt, rn, pre⟩ := head
    intro fuel st prev r tr h
    rcases runTypes_cons_inv env name ttq lt rn pre rest fuel st prev _ tr h with
      ⟨f1, st1, hrp⟩ | ⟨f1, st1, hrp, -, -⟩ | ⟨f1, st1, c1, hrp, -, -, -⟩ |
      ⟨f1, st1, tr1, tr2, hrp, -, -, hrt, htr⟩
    · have hall := requestTypes_all_eq lt pre tr
        (runPages_evWithin env name lt pre ttq fuel st "" _ _ _ _ hrp)
      have := isBlockSeq_all_left lt (rest.map (fun x => x.1)) (requestTypes tr) []
        hall (by simp [isBlockSeq])
      simpa using this
    · have hall := requestTypes_all_eq lt pre tr
        (runPages_evWithin env name lt pre ttq fuel st "" _ _ _ _ hrp)
      have := isBlockSeq_all_left lt (rest.map (fun x => x.1)) (requestTypes tr) []
        hall (by simp [isBlockSeq])
      simpa using this
    · have hall := requestTypes_all_eq lt pre tr
        (runPages_evWithin env name lt pre ttq fuel st "" _ _ _ _ hrp)
      have := isBlockSeq_all_left lt (rest.map (fun x => x.1)) (requestTypes tr) []
        hall (by simp [isBlockSeq])
      simpa using this
    · subst htr
      have hall := requestTypes_all_eq lt pre tr1
        (runPages_evWithin env name lt pre ttq fuel st "" _ _ _ _ hrp)
      have h2 := isBlockSeq_weaken (requestTypes tr2) lt (rest.map (fun x => x.1))
        (ih f1 st1 pre r tr2 hrt)
      rw [List.map_cons, requestTypes_append]
      exact isBlockSeq_all_left lt (rest.map (fun x => x.1)) _ _ hall h2

theorem evMatchId_some_inv (name : String) (ev : Ev) (x : String)
    (h : evMatchId name ev = some x) :
    ∃ pr' e, ev = Ev.scan "users" pr' e ∧ displayMatch name e = true ∧ x = e.id := by
  cases ev with
  | scan a b e =>
    simp only [evMatchId] at h
    split at h
    · rename_i hc
      simp only [Option.some.injEq] at h
      exact ⟨b, e, by rw [hc.1], by simp [hc.2], h.symm⟩
    · simp at h
  | request a b c => simp [evMatchId] at h
  | sleep d => simp [evMatchId] at h
  | apiError a b => simp [evMatchId] at h
  | timedOut a b => simp [evMatchId] at h
  | exhausted a => simp [evMatchId] at h

theorem scanMatches_users_listType (name lt pre : String) (tr : List Ev)
    (hw : ∀ ev ∈ tr, evWithin lt pre ev) (hne : scanMatches name tr ≠ []) :
    lt = "users" := by
  rcases List.exists_mem_of_ne_nil _ hne with ⟨x, hx⟩
  rcases List.mem_filterMap.mp hx with ⟨ev, hev, hx'⟩
  rcases evMatchId_some_inv name ev x hx' with ⟨pr', e, hevq, -, -⟩
  subst hevq
  exact (hw _ hev).1.symm

theorem runTypes_some_id (env : Env) (name : String) (ttq : ℤ) :
    ∀ (tys : List (String × String × String)) (fuel : Nat) (st : St) (prev : String)
      (p i : String) (tr : List Ev),
      runTypes env name ttq tys fuel st prev = some ((p, some i), tr) →
      st.idData = none → st.dup = false →
      (∀ x ∈ tys, x.1 = "users" → x.2.2 = MEMBER_PREFIX) →
      (∃ l pr e, Ev.scan l pr e ∈ tr ∧ e.name = name ∧ e.id = i) ∨
      (p = MEMBER_PREFIX ∧ scanMatches name tr = [i] ∧ Ev.exhausted "users" ∈ tr) := by
  intro tys
  induction tys with
  | nil =>
    intro fuel st prev p i tr h _ _ _
    simp only [runTypes, Option.some.injEq, Prod.mk.injEq] at h
    exact absurd h.1.2 (by simp)
  | cons head rest ih =>
    obtain ⟨lt, rn, pre⟩ := head
    intro fuel st prev p i tr h hid0 hdup0 hlist
    rcases runTypes_cons_inv env name ttq lt rn pre rest fuel st prev _ tr h with
      ⟨f1, st1, hrp⟩ | ⟨f1, st1, hrp, -, hr⟩ | ⟨f1, st1, c, hrp, hdup1, hid1, hr⟩ |
      ⟨f1, st1, tr1, tr2, hrp, hdup1, hid1, hrt, htr⟩
    · obtain ⟨-, hrest⟩ :=
        runPages_ret env name lt pre ttq fuel st "" p (some i) f1 st1 tr hrp
      rcases hrest with h1 | ⟨e, h1, h2, h3⟩
      · exact absurd h1 (by simp)
      · simp only [Option.some.injEq] at h1
        exact Or.inl ⟨lt, pre, e, h3, h2, h1.symm⟩
    · injection hr with hp hoid
      exact absurd hoid (by simp)
    · injection hr with hp hi
      simp only [Option.some.injEq] at hi
      obtain ⟨hfold, tr0, htr0⟩ := runPages_done env name lt pre ttq fuel st "" f1 st1 tr hrp
      rw [hid0, hdup0, hid1, hdup1] at hfold
      rcases hms : scanMatches name tr with - | ⟨j, ms'⟩
      · rw [hms] at hfold
        simp [foldl_updCand_none] at hfold
      · cases ms' with
        | nil =>
          rw [hms, foldl_updCand_none] at hfold
          simp only [Prod.mk.injEq, Option.some.injEq] at hfold
          have hc : c = (pre, j) := hfold.1
          have hlt : lt = "users" := by
            refine scanMatches_users_listType name lt pre tr
              (runPages_evWithin env name lt pre ttq fuel st "" _ _ _ _ hrp) ?_
            rw [hms]
            simp
          have hpre : pre = MEMBER_PREFIX :=
            hlist (lt, rn, pre) (List.mem_cons_self _ _) hlt
          refine Or.inr ⟨by rw [hp, hc, hpre], ?_, ?_⟩
          · simp [hi, hc]
          · rw [htr0, ← hlt]
            simp
        | cons k ms'' =>
          rw [hms, foldl_updCand_none] at hfold
          simp at hfold
    · obtain ⟨hfold, tr0, htr0⟩ :=
        runPages_done env name lt pre ttq fuel st "" f1 st1 tr1 hrp
      rw [hid0, hdup0, hid1, hdup1] at hfold
      have hms : scanMatches name tr1 = [] := by
        rcases hq : scanMatches name tr1 with - | ⟨j, ms'⟩
        · rfl
        · rw [hq, foldl_updCand_none] at hfold
          cases ms' <;> simp at hfold
      subst htr
      rcases ih f1 st1 pre p i tr2 hrt hid1 hdup1
          (fun x hx => hlist x (List.mem_cons_of_mem _ hx)) with
        ⟨l, pr, e, hm, hn, hi⟩ | ⟨hp, hsm, hex⟩
      · exact Or.inl ⟨l, pr, e, List.mem_append_right _ hm, hn, hi⟩
      · refine Or.inr ⟨hp, ?_, List.mem_append_right _ hex⟩
        rw [scanMatches_append, hms, List.nil_append, hsm]

theorem runTypes_users_pre (env : Env) (name : String) (ttq : ℤ) :
    ∀ (tys : List (String × String × String)) (fuel : Nat) (st : St) (prev : String)
      (p : String) (oid : Option String) (tr : List Ev),
      runTypes env name ttq tys fuel st prev = some ((p, oid), tr) →
      st.idData = none → st.dup = false →
      (∀ x ∈ tys, x.1 = "users" → x.2.2 = MEMBER_PREFIX) →
      (∀ x ∈ tys.dropLast, x.1 ≠ "users") →
      (∃ pr e, Ev.scan "users" pr e ∈ tr) → p = MEMBER_PREFIX := by
  intro tys
  induction tys with
  | nil =>
    intro fuel st prev p oid tr h _ _ _ _ hscan
    simp only [runTypes, Option.some.injEq, Prod.mk.injEq] at h
    obtain ⟨pr, e, hm⟩ := hscan
    rw [← h.2] at hm
    simp at hm
  | cons head rest ih =>
    obtain ⟨lt, rn, pre⟩ := head
    intro fuel st prev p oid tr h hid0 hdup0 hlist hdrop hscan
    have hrest_nil : lt = "users" → rest = [] := by
      intro hu
      cases rest with
      | nil => rfl
      | cons r rs =>
        exact absurd hu (hdrop (lt, rn, pre)
          (by rw [List.dropLast_cons₂]; exact List.mem_cons_self _ _))
    have hpre_users : lt = "users" → pre = MEMBER_PREFIX := fun hu =>
      hlist (lt, rn, pre) (List.mem_cons_self _ _) hu
    have hdrop' : ∀ x ∈ rest.dropLast, x.1 ≠ "users" := by
      intro x hx
      apply hdrop
      cases rest with
      | nil => simp at hx
      | cons r rs => rw [List.dropLast_cons₂]; exact List.mem_cons_of_mem _ hx
    rcases runTypes_cons_inv env name ttq lt rn pre rest fuel st prev _ tr h with
      ⟨f1, st1, hrp⟩ | ⟨f1, st1, hrp, -, hr⟩ | ⟨f1, st1, c, hrp, hdup1, hid1, hr⟩ |
      ⟨f1, st1, tr1, tr2, hrp, hdup1, hid1, hrt, htr⟩
    · obtain ⟨pr, e, hm⟩ := hscan
      have hlt : lt = "users" :=
        ((runPages_evWithin env name lt pre ttq fuel st "" _ _ _ _ hrp _ hm).1).symm
      obtain ⟨hp, -⟩ :=
        runPages_ret env name lt pre ttq fuel st "" p oid f1 st1 tr hrp
      rw [hp]
      exact hpre_users hlt
    · obtain ⟨pr, e, hm⟩ := hscan
      have hlt : lt = "users" :=
        ((runPages_evWithin env name lt pre ttq fuel st "" _ _ _ _ hrp _ hm).1).symm
      injection hr with hp hoid2
      rw [hp]
      exact hpre_users hlt
    · injection hr with hp hoid2
      obtain ⟨hfold, tr0, htr0⟩ := runPages_done env name lt pre ttq fuel st "" f1 st1 tr hrp
      rw [hid0, hdup0, hid1, hdup1] at hfold
      rcases hms : scanMatches name tr with - | ⟨j, ms'⟩
      · rw [hms] at hfold
        simp [foldl_updCand_none] at hfold
      · have hlt : lt = "users" := by
          refine scanMatches_users_listType name lt pre tr
            (runPages_evWithin env name lt pre ttq fuel st "" _ _ _ _ hrp) ?_
          rw [hms]
          simp
        cases ms' with
        | nil =>
          rw [hms, foldl_updCand_none] at hfold
          simp only [Prod.mk.injEq, Option.some.injEq] at hfold
          rw [hp, hfold.1]
          exact hpre_users hlt
        | cons k ms'' =>
          rw [hms, foldl_updCand_none] at hfold
          simp at hfold
    · subst htr
      obtain ⟨pr, e, hm⟩ := hscan
      rcases List.mem_append.mp hm with h1 | h2
      · have hlt : lt = "users" :=
          ((runPages_evWithin env name lt pre ttq fuel st "" _ _ _ _ hrp _ h1).1).symm
        have hnil := hrest_nil hlt
        subst hnil
        simp only [runTypes, Option.some.injEq, Prod.mk.injEq] at hrt
        rw [← hrt.1.1]
        exact hpre_users hlt
      · exact ih f1 st1 pre p oid tr2 hrt hid1 hdup1
          (fun x hx => hlist x (List.mem_cons_of_mem _ hx)) hdrop' ⟨pr, e, h2⟩

/-! ### Unfolding helpers and auxiliary corollaries -/

theorem get_eq_current (env : Env) (name : String) (timeout : ℤ) (fuel : Nat) :
    get_channel_id_with_timeout env false name timeout fuel =
      runTypes env name timeout LIST_TYPES fuel ⟨0, 0, none, false⟩ CHANNEL_PREFIX := rfl

theorem get_eq_legacy (env : Env) (name : String) (timeout : ℤ) (fuel : Nat) :
    get_channel_id_with_timeout env true name timeout fuel =
      runTypes env name timeout LEGACY_LIST_TYPES fuel ⟨0, 0, none, false⟩ CHANNEL_PREFIX := rfl

theorem runTypes_cons_head (env : Env) (name : String) (ttq : ℤ)
    (lt rn pre : String) (rest : List (String × String × String))
    (fuel : Nat) (st : St) (prev : String) (r : String × Option String) (tr : List Ev)
    (h : runTypes env name ttq ((lt, rn, pre) :: rest) fuel st prev = some (r, tr)) :
    ∃ rest', tr = Ev.request lt "" (some 100) :: rest' := by
  rcases runTypes_cons_inv env name ttq lt rn pre rest fuel st prev r tr h with
    ⟨f1, st1, hrp⟩ | ⟨f1, st1, hrp, -, -⟩ | ⟨f1, st1, c, hrp, -, -, -⟩ |
    ⟨f1, st1, tr1, tr2, hrp, -, -, -, htr⟩
  · exact runPages_head env name lt pre ttq fuel st "" _ _ _ _ hrp
  · exact runPages_head env name lt pre ttq fuel st "" _ _ _ _ hrp
  · exact runPages_head env name lt pre ttq fuel st "" _ _ _ _ hrp
  · obtain ⟨rest', hh⟩ := runPages_head env name lt pre ttq fuel st "" _ _ _ _ hrp
    subst htr
    rw [hh]
    exact ⟨rest' ++ tr2, rfl⟩

theorem runTypes_dup_absent (env : Env) (name : String) (ttq : ℤ)
    (tys : List (String × String × String)) (fuel : Nat) (st : St) (prev : String)
    (p : String) (oid : Option String) (tr : List Ev)
    (h : runTypes env name ttq tys fuel st prev = some ((p, oid), tr))
    (hid0 : st.idData = none) (hdup0 : st.dup = false)
    (hlist : ∀ x ∈ tys, x.1 = "users" → x.2.2 = MEMBER_PREFIX)
    (hdrop : ∀ x ∈ tys.dropLast, x.1 ≠ "users")
    (hdup : 2 ≤ (scanMatches name tr).length)
    (hnone : ∀ l pr e, Ev.scan l pr e ∈ tr → e.name ≠ name) :
    (p, oid) = (MEMBER_PREFIX, none) := by
  have hoid : oid = none := by
    rcases oid with - | i
    · rfl
    · rcases runTypes_some_id env name ttq tys fuel st prev p i tr h hid0 hdup0 hlist with
        ⟨l, pr, e, hm, hn, -⟩ | ⟨-, hsm, -⟩
      · exact absurd hn (hnone l pr e hm)
      · rw [hsm] at hdup
        simp at hdup
  have hscan : ∃ pr e, Ev.scan "users" pr e ∈ tr := by
    have hne : scanMatches name tr ≠ [] := by
      intro hc
      rw [hc] at hdup
      simp at hdup
    rcases List.exists_mem_of_ne_nil _ hne with ⟨x, hx⟩
    rcases List.mem_filterMap.mp hx with ⟨ev, hev, hx'⟩
    rcases evMatchId_some_inv name ev x hx' with ⟨pr', e, hevq, -, -⟩
    subst hevq
    exact ⟨pr', e, hev⟩
  have hp := runTypes_users_pre env name ttq tys fuel st prev p oid tr h
    hid0 hdup0 hlist hdrop hscan
  rw [hp, hoid]

/-! ### Concrete environments used as witnesses -/

/-- A channel entry named `general`. -/
def entGeneral : SlackEntry := ⟨"general", "C1", none⟩

/-- A user whose unique name is `alice` and display name `jdoe`. -/
def userOne : SlackEntry := ⟨"alice", "U1", some ⟨some "jdoe"⟩⟩

/-- A second user with the same display name `jdoe`. -/
def userTwo : SlackEntry := ⟨"bob", "U2", some ⟨some "jdoe"⟩⟩

/-- Every request answers one page holding `entGeneral`, no further cursor. -/
def envFound : Env := ⟨fun _ _ _ => ⟨true, none, [entGeneral], none⟩, fun _ => 0⟩

/-- The users directory holds two entries with the same display name. -/
def envUsersDup : Env :=
  ⟨fun _ lt _ => if lt = "users" then ⟨true, none, [userOne, userTwo], none⟩
    else ⟨true, none, [], none⟩, fun _ => 0⟩

/-- The users directory holds exactly one display-name match. -/
def envUsersOne : Env :=
  ⟨fun _ lt _ => if lt = "users" then ⟨true, none, [userOne], none⟩
    else ⟨true, none, [], none⟩, fun _ => 0⟩

/-- Every request fails with no `retry-after` header. -/
def envFail : Env := ⟨fun _ _ _ => ⟨false, none, [], none⟩, fun _ => 0⟩

/-- Every request is rate limited with `retry-after: 1`. -/
def envRateLimited : Env := ⟨fun _ _ _ => ⟨false, some 1, [], none⟩, fun _ => 0⟩

/-- Every request succeeds with an empty page but takes 100 seconds. -/
def envSlow : Env := ⟨fun _ _ _ => ⟨true, none, [], none⟩, fun _ => 100⟩

/-- The first request is fast, later ones take 100 seconds; the users
directory holds one display-name match. -/
def envLateSlow : Env :=
  ⟨fun _ lt _ => if lt = "users" then ⟨true, none, [userOne], none⟩
    else ⟨true, none, [], none⟩, fun i => if i = 0 then 0 else 100⟩

/-- Trace of `envUsersOne`, current mode, target `jdoe`. -/
def trUsersOne : List Ev :=
  [Ev.request "conversations" "" (some 100), Ev.exhausted "conversations",
   Ev.request "users" "" (some 100), Ev.scan "users" MEMBER_PREFIX userOne,
   Ev.exhausted "users"]

/-- Trace of `envUsersDup`, current mode, target `jdoe`. -/
def trUsersDup : List Ev :=
  [Ev.request "conversations" "" (some 100), Ev.exhausted "conversations",
   Ev.request "users" "" (some 100), Ev.scan "users" MEMBER_PREFIX userOne,
   Ev.scan "users" MEMBER_PREFIX userTwo, Ev.exhausted "users"]

/-- Trace of `envFound`, current mode, target `general`. -/
def trFound : List Ev :=
  [Ev.request "conversations" "" (some 100),
   Ev.scan "conversations" CHANNEL_PREFIX entGeneral]

/-- Trace of `envFound`, legacy mode, target `general`. -/
def trFoundLegacy : List Ev :=
  [Ev.request "channels" "" (some 100), Ev.scan "channels" CHANNEL_PREFIX entGeneral]

/-- Trace of `envFail`, current mode. -/
def trFail : List Ev :=
  [Ev.request "conversations" "" (some 100), Ev.apiError "conversations" CHANNEL_PREFIX]

/-- Trace of `envSlow`, current mode. -/
def trSlow : List Ev :=
  [Ev.request "conversations" "" (some 100), Ev.timedOut "conversations" CHANNEL_PREFIX]

/-- Trace of `envLateSlow`, current mode, target `jdoe`. -/
def trLateSlow : List Ev :=
  [Ev.request "conversations" "" (some 100), Ev.exhausted "conversations",
   Ev.request "users" "" (some 100), Ev.scan "users" MEMBER_PREFIX userOne,
   Ev.timedOut "users" MEMBER_PREFIX]

/-! ### The claims -/

/-- C1: `get_channel_id_with_timeout` returns a pair whose second component
is non-absent only when a uniquely matching entry was found: either some
scanned entry's unique `name` equals the target (with that entry's id
returned), or exactly one scanned `users`-directory entry's `display_name`
equals the target across all pages scanned, and that list-type's pages were
exhausted. -/
theorem spec_C1_success_only_with_unique_match (env : Env) (legacy : Bool)
    (name : String) (timeout : ℤ) (fuel : Nat) (p i : String) (tr : List Ev)
    (h : get_channel_id_with_timeout env legacy name timeout fuel
      = some ((p, some i), tr)) :
    (∃ l pr e, Ev.scan l pr e ∈ tr ∧ e.name = name ∧ e.id = i) ∨
    (p = MEMBER_PREFIX ∧ scanMatches name tr = [i] ∧ Ev.exhausted "users" ∈ tr) := by
  cases legacy
  · rw [get_eq_current] at h
    exact runTypes_some_id env name timeout LIST_TYPES fuel ⟨0, 0, none, false⟩
      CHANNEL_PREFIX p i tr h rfl rfl (by decide)
  · rw [get_eq_legacy] at h
    exact runTypes_some_id env name timeout LEGACY_LIST_TYPES fuel ⟨0, 0, none, false⟩
      CHANNEL_PREFIX p i tr h rfl rfl (by decide)

theorem spec_C1_witness :
    (∃ l pr e, Ev.scan l pr e ∈ trUsersOne ∧ e.name = "jdoe" ∧ e.id = "U1") ∨
    (MEMBER_PREFIX = MEMBER_PREFIX ∧ scanMatches "jdoe" trUsersOne = ["U1"] ∧
      Ev.exhausted "users" ∈ trUsersOne) :=
  spec_C1_success_only_with_unique_match envUsersOne false "jdoe" 30 5
    MEMBER_PREFIX "U1" trUsersOne (by decide)

/-- C2: if a scanned entry's unique `name` equals the target, the resolver
returns that directory's prefix and that entry's id immediately: the scan of
that entry is the final event of the whole trace, so no later entries of the
page, no later pages, and no subsequent directory types are consulted, even
when display-name duplicates were already recorded. -/
theorem spec_C2_exact_name_short_circuits (env : Env) (legacy : Bool)
    (name : String) (timeout : ℤ) (fuel : Nat) (p : String) (oid : Option String)
    (tr : List Ev) (l pr : String) (e : SlackEntry)
    (h : get_channel_id_with_timeout env legacy name timeout fuel = some ((p, oid), tr))
    (hev : Ev.scan l pr e ∈ tr) (hname : e.name = name) :
    (p, oid) = (pr, some e.id) ∧ tr.getLast? = some (Ev.scan l pr e) := by
  cases legacy
  · rw [get_eq_current] at h
    exact runTypes_exact env name timeout LIST_TYPES fuel _ _ p oid tr l pr e h hev hname
  · rw [get_eq_legacy] at h
    exact runTypes_exact env name timeout LEGACY_LIST_TYPES fuel _ _ p oid tr l pr e h hev hname

theorem spec_C2_witness :
    ((CHANNEL_PREFIX, some "C1") : String × Option String)
        = (CHANNEL_PREFIX, some entGeneral.id) ∧
      trFound.getLast? = some (Ev.scan "conversations" CHANNEL_PREFIX entGeneral) :=
  spec_C2_exact_name_short_circuits envFound false "general" 30 5 CHANNEL_PREFIX
    (some "C1") trFound "conversations" CHANNEL_PREFIX entGeneral (by decide) (by decide) rfl

/-- C3: when two or more scanned `users`-directory entries have
`display_name` equal to the target and no scanned entry's unique `name`
equals it, the resolver returns the member prefix with the id absent. -/
theorem spec_C3_duplicate_display_names_absent (env : Env) (legacy : Bool)
    (name : String) (timeout : ℤ) (fuel : Nat) (p : String) (oid : Option String)
    (tr : List Ev)
    (h : get_channel_id_with_timeout env legacy name timeout fuel = some ((p, oid), tr))
    (hdup : 2 ≤ (scanMatches name tr).length)
    (hnone : ∀ l pr e, Ev.scan l pr e ∈ tr → e.name ≠ name) :
    (p, oid) = (MEMBER_PREFIX, none) := by
  cases legacy
  · rw [get_eq_current] at h
    exact runTypes_dup_absent env name timeout LIST_TYPES fuel ⟨0, 0, none, false⟩
      CHANNEL_PREFIX p oid tr h rfl rfl (by decide) (by decide) hdup hnone
  · rw [get_eq_legacy] at h
    exact runTypes_dup_absent env name timeout LEGACY_LIST_TYPES fuel ⟨0, 0, none, false⟩
      CHANNEL_PREFIX p oid tr h rfl rfl (by decide) (by decide) hdup hnone

theorem spec_C3_witness :
    2 ≤ (scanMatches "jdoe" trUsersDup).length ∧
      ((MEMBER_PREFIX, (none : Option String)) = (MEMBER_PREFIX, none)) :=
  ⟨by decide,
    spec_C3_duplicate_display_names_absent envUsersDup false "jdoe" 30 5
      MEMBER_PREFIX none trUsersDup (by decide) (by decide)
      (by
        intro l pr e hm
        simp only [trUsersDup, List.mem_cons, List.not_mem_nil, or_false] at hm
        rcases hm with h | h | h | h | h | h
        · exact absurd h (by simp)
        · exact absurd h (by simp)
        · exact absurd h (by simp)
        · injection h with h1 h2 h3
          subst h3
          decide
        · injection h with h1 h2 h3
          subst h3
          decide
        · exact absurd h (by simp))⟩

/-- C4: an `ok: false` response without a `retry-after` header aborts the
whole resolution at once with the current directory's prefix and id absent:
the trace ends with the failed request immediately followed by the abort, so
that request is not retried and no further pages or directory types are
attempted. -/
theorem spec_C4_api_error_aborts (env : Env) (legacy : Bool)
    (name : String) (timeout : ℤ) (fuel : Nat) (p : String) (oid : Option String)
    (tr : List Ev) (l pr : String)
    (h : get_channel_id_with_timeout env legacy name timeout fuel = some ((p, oid), tr))
    (hev : Ev.apiError l pr ∈ tr) :
    (p, oid) = (pr, none) ∧
    ∃ tr0 cur', tr = tr0 ++ [Ev.request l cur' (some 100), Ev.apiError l pr] := by
  cases legacy
  · rw [get_eq_current] at h
    exact runTypes_apiError env name timeout LIST_TYPES fuel _ _ p oid tr l pr h hev
  · rw [get_eq_legacy] at h
    exact runTypes_apiError env name timeout LEGACY_LIST_TYPES fuel _ _ p oid tr l pr h hev

theorem spec_C4_witness :
    ((CHANNEL_PREFIX, (none : Option String)) = (CHANNEL_PREFIX, none)) ∧
    ∃ tr0 cur', trFail
      = tr0 ++ [Ev.request "conversations" cur' (some 100),
          Ev.apiError "conversations" CHANNEL_PREFIX] :=
  spec_C4_api_error_aborts envFail false "x" 30 5 CHANNEL_PREFIX none trFail
    "conversations" CHANNEL_PREFIX (by decide) (by decide)

/-- C5: first, after a page completes the deadline is checked: if the clock
then exceeds `time_to_quit`, the loop returns `(prefix, absent)` right away.
Second, at the whole-resolver level a timeout abort is the final event of the
trace — no further pages are fetched and no subsequent directory types are
attempted, and the result is the aborting directory's prefix with id absent;
the event preceding the abort is always page activity (a request or an entry
scan), never a rate-limit sleep. -/
theorem spec_C5_timeout_aborts_after_page :
    (∀ (env : Env) (name lt pre : String) (ttq : ℤ) (fuel : Nat) (st : St) (cur : String)
        (idD : Option (String × String)) (dp : Bool) (sc : List SlackEntry),
      (env.respond st.reqIdx lt cur).ok = true →
      scanPage name lt pre st.idData st.dup (env.respond st.reqIdx lt cur).items
        = (.cont idD dp, sc) →
      ttq < st.clock + env.reqTime st.reqIdx →
      runPages env name lt pre ttq (fuel + 1) st cur =
        some (.ret (pre, none), fuel,
          ⟨st.reqIdx + 1, st.clock + env.reqTime st.reqIdx, idD, dp⟩,
          pageEvs lt pre cur sc ++ [Ev.timedOut lt pre])) ∧
    (∀ (env : Env) (legacy : Bool) (name : String) (timeout : ℤ) (fuel : Nat)
        (p : String) (oid : Option String) (tr : List Ev) (l pr : String),
      get_channel_id_with_timeout env legacy name timeout fuel = some ((p, oid), tr) →
      Ev.timedOut l pr ∈ tr →
      (p, oid) = (pr, none) ∧
      ∃ tr0, tr = tr0 ++ [Ev.timedOut l pr] ∧
        ∀ ev, tr0.getLast? = some ev →
          (∃ a b c, ev = Ev.request a b c) ∨ (∃ a b e, ev = Ev.scan a b e)) := by
  constructor
  · intro env name lt pre ttq fuel st cur idD dp sc hok hsc ht
    exact runPages_timeout env name lt pre ttq fuel st cur idD dp sc hok hsc ht
  · intro env legacy name timeout fuel p oid tr l pr h hev
    cases legacy
    · rw [get_eq_current] at h
      exact runTypes_timedOut env name timeout LIST_TYPES fuel _ _ p oid tr l pr h hev
    · rw [get_eq_legacy] at h
      exact runTypes_timedOut env name timeout LEGACY_LIST_TYPES fuel _ _ p oid tr l pr h hev

theorem spec_C5_witness :
    (runPages envSlow "x" "conversations" CHANNEL_PREFIX 30 (0 + 1) ⟨0, 0, none, false⟩ "" =
      some (.ret (CHANNEL_PREFIX, none), 0, ⟨0 + 1, 0 + envSlow.reqTime 0, none, false⟩,
        pageEvs "conversations" CHANNEL_PREFIX "" [] ++
          [Ev.timedOut "conversations" CHANNEL_PREFIX])) ∧
    (((CHANNEL_PREFIX, (none : Option String)) = (CHANNEL_PREFIX, none)) ∧
      ∃ tr0, trSlow = tr0 ++ [Ev.timedOut "conversations" CHANNEL_PREFIX] ∧
        ∀ ev, tr0.getLast? = some ev →
          (∃ a b c, ev = Ev.request a b c) ∨ (∃ a b e, ev = Ev.scan a b e)) :=
  ⟨spec_C5_timeout_aborts_after_page.1 envSlow "x" "conversations" CHANNEL_PREFIX 30 0
      ⟨0, 0, none, false⟩ "" none false [] rfl rfl (by decide),
   spec_C5_timeout_aborts_after_page.2 envSlow false "x" 30 5 CHANNEL_PREFIX none
      trSlow "conversations" CHANNEL_PREFIX (by decide) (by decide)⟩

/-- C6: on an `ok: false` response carrying a `retry-after` header of `d`,
the page loop sleeps for `d` and reissues the identical request: the cursor
and every other piece of state except the clock are unchanged, the trace
records the request and the sleep, and the response is not treated as an
error (the loop goes on rather than returning). -/
theorem spec_C6_rate_limit_sleeps_and_retries (env : Env) (name lt pre : String)
    (ttq : ℤ) (fuel : Nat) (st : St) (cur : String) (d : ℤ)
    (hok : (env.respond st.reqIdx lt cur).ok = false)
    (hra : (env.respond st.reqIdx lt cur).retry_after = some d) :
    runPages env name lt pre ttq (fuel + 1) st cur =
      (runPages env name lt pre ttq fuel
          ⟨st.reqIdx + 1, st.clock + env.reqTime st.reqIdx + d, st.idData, st.dup⟩ cur).map
        (fun x => (x.1, x.2.1, x.2.2.1,
          Ev.request lt cur (some 100) :: Ev.sleep d :: x.2.2.2)) :=
  runPages_rate_limited env name lt pre ttq fuel st cur d hok hra

theorem spec_C6_witness :
    runPages envRateLimited "x" "conversations" CHANNEL_PREFIX 30 (0 + 1)
        ⟨0, 0, none, false⟩ "" =
      (runPages envRateLimited "x" "conversations" CHANNEL_PREFIX 30 0
          ⟨0 + 1, 0 + envRateLimited.reqTime 0 + 1, none, false⟩ "").map
        (fun x => (x.1, x.2.1, x.2.2.1,
          Ev.request "conversations" "" (some 100) :: Ev.sleep 1 :: x.2.2.2)) :=
  spec_C6_rate_limit_sleeps_and_retries envRateLimited "x" "conversations"
    CHANNEL_PREFIX 30 0 ⟨0, 0, none, false⟩ "" 1 rfl rfl

/-- C7 counterexample: the original claim says legacy-mode requests leave the
page size unspecified, but a legacy-mode run issues its directory list
request with `limit=100` (the source passes `limit=100` unconditionally,
line 238). -/
theorem spec_C7_counterexample :
    ¬(∀ (r : String × Option String) (tr : List Ev),
        get_channel_id_with_timeout envFound true "general" 30 2 = some (r, tr) →
        ∀ l c li, Ev.request l c li ∈ tr → li = none) := by
  intro hcl
  have h := hcl (CHANNEL_PREFIX, some "C1") trFoundLegacy (by decide)
    "channels" "" (some 100) (by decide)
  exact absurd h (by decide)

/-- C7 (amended): every directory list request, in current and legacy mode
alike, asks for page size 100. -/
theorem spec_C7_page_size_always_100 (env : Env) (legacy : Bool)
    (name : String) (timeout : ℤ) (fuel : Nat)
    (r : String × Option String) (tr : List Ev)
    (h : get_channel_id_with_timeout env legacy name timeout fuel = some (r, tr)) :
    ∀ l c li, Ev.request l c li ∈ tr → li = some 100 := by
  cases legacy
  · rw [get_eq_current] at h
    exact runTypes_limit env name timeout LIST_TYPES fuel _ _ r tr h
  · rw [get_eq_legacy] at h
    exact runTypes_limit env name timeout LEGACY_LIST_TYPES fuel _ _ r tr h

theorem spec_C7_witness :
    get_channel_id_with_timeout envFound true "general" 30 2
        = some ((CHANNEL_PREFIX, some "C1"), trFoundLegacy) ∧
      (some 100 : Option Nat) = some 100 :=
  ⟨by decide,
    spec_C7_page_size_always_100 envFound true "general" 30 2
      (CHANNEL_PREFIX, some "C1") trFoundLegacy (by decide) "channels" "" (some 100)
      (by decide)⟩

/-- C8: leading `#`/`@` characters are stripped from the target before any
comparison (so a `#`-prefixed and an `@`-prefixed raw name resolve
identically), and the stripped character does not select the lookup type —
every run requests the channel-like directory first (`conversations`
current, `channels` legacy) and its request sequence follows the fixed
directory order (`conversations` then `users`; legacy `channels`, `groups`,
then `users`). -/
theorem spec_C8_strip_and_fixed_order :
    (∀ s : String, clean_channel (CHANNEL_PREFIX ++ s) = clean_channel s ∧
        clean_channel (MEMBER_PREFIX ++ s) = clean_channel s) ∧
    (∀ (env : Env) (legacy : Bool) (raw : String) (timeout : ℤ) (fuel : Nat),
      get_channel_id_with_timeout env legacy (clean_channel (CHANNEL_PREFIX ++ raw))
          timeout fuel =
        get_channel_id_with_timeout env legacy (clean_channel (MEMBER_PREFIX ++ raw))
          timeout fuel) ∧
    (∀ (env : Env) (legacy : Bool) (name : String) (timeout : ℤ) (fuel : Nat)
        (r : String × Option String) (tr : List Ev),
      get_channel_id_with_timeout env legacy name timeout fuel = some (r, tr) →
      (∃ rest, tr = Ev.request (if legacy then "channels" else "conversations") ""
          (some 100) :: rest) ∧
      isBlockSeq (requestTypes tr)
        (if legacy then ["channels", "groups", "users"]
          else ["conversations", "users"]) = true) := by
  have hstrip : ∀ s : String, clean_channel (CHANNEL_PREFIX ++ s) = clean_channel s ∧
      clean_channel (MEMBER_PREFIX ++ s) = clean_channel s := fun s => ⟨rfl, rfl⟩
  refine ⟨hstrip, fun env legacy raw timeout fuel => ?_,
    fun env legacy name timeout fuel r tr h => ?_⟩
  · rw [(hstrip raw).1, (hstrip raw).2]
  · cases legacy
    · rw [get_eq_current] at h
      constructor
      · exact runTypes_cons_head env name timeout "conversations" "channels"
          CHANNEL_PREFIX [("users", "members", MEMBER_PREFIX)] fuel
          ⟨0, 0, none, false⟩ CHANNEL_PREFIX r tr h
      · exact runTypes_blockseq env name timeout LIST_TYPES fuel _ _ r tr h
    · rw [get_eq_legacy] at h
      constructor
      · exact runTypes_cons_head env name timeout "channels" "channels"
          CHANNEL_PREFIX [("groups", "groups", CHANNEL_PREFIX),
            ("users", "members", MEMBER_PREFIX)] fuel
          ⟨0, 0, none, false⟩ CHANNEL_PREFIX r tr h
      · exact runTypes_blockseq env name timeout LEGACY_LIST_TYPES fuel _ _ r tr h

theorem spec_C8_witness :
    (clean_channel (CHANNEL_PREFIX ++ "general") = clean_channel "general" ∧
      clean_channel (MEMBER_PREFIX ++ "general") = clean_channel "general") ∧
    (get_channel_id_with_timeout envFound false
        (clean_channel (CHANNEL_PREFIX ++ "general")) 30 5 =
      get_channel_id_with_timeout envFound false
        (clean_channel (MEMBER_PREFIX ++ "general")) 30 5) ∧
    ((∃ rest, trFoundLegacy
        = Ev.request (if true then "channels" else "conversations") "" (some 100) :: rest) ∧
      isBlockSeq (requestTypes trFoundLegacy)
        (if true then ["channels", "groups", "users"]
          else ["conversations", "users"]) = true) :=
  ⟨spec_C8_strip_and_fixed_order.1 "general",
   spec_C8_strip_and_fixed_order.2.1 envFound false "general" 30 5,
   spec_C8_strip_and_fixed_order.2.2 envFound true "general" 30 2
     (CHANNEL_PREFIX, some "C1") trFoundLegacy (by decide)⟩

/-- C9: if every request keeps answering `ok: false` with a `retry-after`
header, the resolver never returns: for every fuel bound the page loop is
still running (the deadline is only checked after a successfully fetched
page, so the timeout does not bound execution). -/
theorem spec_C9_persistent_rate_limit_never_returns (env : Env) (legacy : Bool)
    (name : String) (timeout : ℤ)
    (hrl : ∀ i l c, (env.respond i l c).ok = false ∧
      ∃ d, (env.respond i l c).retry_after = some d) :
    ∀ fuel, get_channel_id_with_timeout env legacy name timeout fuel = none := by
  intro fuel
  cases legacy
  · rw [get_eq_current,
      show LIST_TYPES = ("conversations", "channels", CHANNEL_PREFIX) ::
        [("users", "members", MEMBER_PREFIX)] from rfl,
      runTypes,
      runPages_rl env name "conversations" CHANNEL_PREFIX timeout hrl fuel
        ⟨0, 0, none, false⟩ ""]
  · rw [get_eq_legacy,
      show LEGACY_LIST_TYPES = ("channels", "channels", CHANNEL_PREFIX) ::
        [("groups", "groups", CHANNEL_PREFIX), ("users", "members", MEMBER_PREFIX)] from rfl,
      runTypes,
      runPages_rl env name "channels" CHANNEL_PREFIX timeout hrl fuel
        ⟨0, 0, none, false⟩ ""]

theorem spec_C9_witness :
    get_channel_id_with_timeout envRateLimited false "x" 30 50 = none :=
  spec_C9_persistent_rate_limit_never_returns envRateLimited false "x" 30
    (fun _ _ _ => ⟨rfl, 1, rfl⟩) 50

/-- C10: the deadline check runs before the end-of-pagination `break`:
first, on the final page of the users directory (no further cursor), with a
unique display-name candidate recorded and no duplicate, an expired deadline
still makes the loop return `("@", absent)` instead of the candidate; and at
the whole-resolver level, a run whose trace ends in a users-directory
timeout returns `("@", absent)` even when exactly one display-name match was
scanned. -/
theorem spec_C10_timeout_check_precedes_break :
    (∀ (env : Env) (name : String) (ttq : ℤ) (fuel : Nat) (st : St) (cur : String)
        (cand : String × String) (sc : List SlackEntry),
      (env.respond st.reqIdx "users" cur).ok = true →
      scanPage name "users" MEMBER_PREFIX st.idData st.dup
        (env.respond st.reqIdx "users" cur).items = (.cont (some cand) false, sc) →
      cursorTruthy (env.respond st.reqIdx "users" cur).next_cursor = false →
      ttq < st.clock + env.reqTime st.reqIdx →
      runPages env name "users" MEMBER_PREFIX ttq (fuel + 1) st cur =
        some (.ret (MEMBER_PREFIX, none), fuel,
          ⟨st.reqIdx + 1, st.clock + env.reqTime st.reqIdx, some cand, false⟩,
          pageEvs "users" MEMBER_PREFIX cur sc ++ [Ev.timedOut "users" MEMBER_PREFIX])) ∧
    (∀ (env : Env) (legacy : Bool) (name : String) (timeout : ℤ) (fuel : Nat)
        (p : String) (oid : Option String) (tr : List Ev) (i : String),
      get_channel_id_with_timeout env legacy name timeout fuel = some ((p, oid), tr) →
      Ev.timedOut "users" MEMBER_PREFIX ∈ tr →
      scanMatches name tr = [i] →
      (p, oid) = (MEMBER_PREFIX, none)) := by
  constructor
  · intro env name ttq fuel st cur cand sc hok hsc hcu ht
    exact runPages_timeout env name "users" MEMBER_PREFIX ttq fuel st cur
      (some cand) false sc hok hsc ht
  · intro env legacy name timeout fuel p oid tr i h hev hms
    cases legacy
    · rw [get_eq_current] at h
      exact (runTypes_timedOut env name timeout LIST_TYPES fuel _ _ p oid tr
        "users" MEMBER_PREFIX h hev).1
    · rw [get_eq_legacy] at h
      exact (runTypes_timedOut env name timeout LEGACY_LIST_TYPES fuel _ _ p oid tr
        "users" MEMBER_PREFIX h hev).1

theorem spec_C10_witness :
    (runPages envLateSlow "jdoe" "users" MEMBER_PREFIX 30 (0 + 1) ⟨1, 0, none, false⟩ "" =
      some (.ret (MEMBER_PREFIX, none), 0,
        ⟨1 + 1, 0 + envLateSlow.reqTime 1, some (MEMBER_PREFIX, "U1"), false⟩,
        pageEvs "users" MEMBER_PREFIX "" [userOne] ++
          [Ev.timedOut "users" MEMBER_PREFIX])) ∧
    ((MEMBER_PREFIX, (none : Option String)) = (MEMBER_PREFIX, none)) :=
  ⟨spec_C10_timeout_check_precedes_break.1 envLateSlow "jdoe" 30 0 ⟨1, 0, none, false⟩
      "" (MEMBER_PREFIX, "U1") [userOne] rfl (by decide) rfl (by decide),
   spec_C10_timeout_check_precedes_break.2 envLateSlow false "jdoe" 30 5
      MEMBER_PREFIX none trLateSlow "U1" (by decide) (by decide) (by decide)⟩

end SlackResolver
